import Mathlib

/-!
# Verification of the lockin enforcement core

A shallow embedding of the enforcement and session-integrity subsystem of the
`lockin` focus blocker, together with proofs and refutations of the spec's
claims about it.

Conventions of the embedding:

* Text (file contents, domains, process names) is modelled as `Str := List Char`.
  Line structure is modelled over the `'\n'` separator (the hosts file and all
  strings manipulated by the code are plain ASCII text; the exotic line
  terminators recognised by Python's `str.splitlines` do not occur).
* Python `float` timestamps are modelled as `ℚ`, Python `int` as `ℤ`.
* Python dicts that are only read through `get`/`in` are modelled as
  association lists with `lookup`.
* Filesystem and subprocess effects are modelled by explicit state passing over
  a `World` record plus an `Env` record of outcomes of external calls
  (permissions, pfctl, resolver, process table).
* The HMAC-SHA-256 keyed MAC is modelled symbolically: the development is
  parameterised over a function `mac : SigPayload → Str` standing for
  `hmac.new(key, payload, sha256).hexdigest()`; ideal-functionality facts take
  the injectivity of the MAC as a hypothesis, discharged in witnesses by a
  concrete injective coding function.
-/

namespace Lockin

/-- Text: a string as a list of characters. -/
abbrev Str := List Char

/-! ## Line-level text primitives

`splitOnNl` models Python `content.split("\n")`; `pySplitlines` models
`content.splitlines()` (which, unlike `split`, drops the empty chunk after a
final newline); `joinNl` models `"\n".join(lines)`; `pyStrip` models
`line.strip()` (both-ends whitespace removal). -/

/-- Split on `'\n'`.  The result is always nonempty; chunks contain no `'\n'`. -/
def splitOnNl : Str → List Str
  | [] => [[]]
  | c :: rest =>
    if c = '\n' then [] :: splitOnNl rest
    else
      match splitOnNl rest with
      | [] => [[c]]
      | l :: ls => (c :: l) :: ls

/-- `"\n".join(lines)`. -/
def joinNl : List Str → Str
  | [] => []
  | [l] => l
  | l :: l' :: ls => l ++ '\n' :: joinNl (l' :: ls)

/-- Python `str.splitlines()` restricted to `'\n'` separators: like
`split("\n")` but without the trailing empty chunk produced by a final
newline, and `[]` on the empty string. -/
def pySplitlines (s : Str) : List Str :=
  let l := splitOnNl s
  if l.getLast? = some [] then l.dropLast else l

/-- Python `str.strip()` (ASCII whitespace). -/
def pyStrip (s : Str) : Str :=
  ((s.dropWhile Char.isWhitespace).reverse.dropWhile Char.isWhitespace).reverse

/-- A line that Python's `line.strip() == ""` test regards as blank. -/
def isBlankLine (l : Str) : Bool := decide (pyStrip l = [])

/-- `while result and result[-1].strip() == "": result.pop()`. -/
def dropTrailingBlanks (ls : List Str) : List Str :=
  (ls.reverse.dropWhile isBlankLine).reverse

/-- Remove every trailing `'\n'`; "content modulo trailing-newline
normalization" is equality of `stripTrailNl` images. -/
def stripTrailNl (s : Str) : Str :=
  (s.reverse.dropWhile (fun c => decide (c = '\n'))).reverse

/-! ## Hosts-file blocker (`src/lockin/blocker.py`) -/

/-- `BLOCK_START = "# >>> LOCKIN BLOCK START >>>"`. -/
def BLOCK_START : Str := "# >>> LOCKIN BLOCK START >>>".toList

/-- `BLOCK_END = "# <<< LOCKIN BLOCK END <<<"`. -/
def BLOCK_END : Str := "# <<< LOCKIN BLOCK END <<<".toList

/-- The line `0.0.0.0 <domain>`. -/
def entryLine (d : Str) : Str := "0.0.0.0 ".toList ++ d

/-- `sorted(set(domains))`: the lexicographically sorted list of the distinct
domains (Python sorts `str` by code points, matching the `List Char`
lexicographic order). -/
def sortedSet (domains : List Str) : List Str :=
  domains.toFinset.sort (· ≤ ·)

/-- `_get_block_entries(domains)`: sentinel, one `0.0.0.0 d` line per sorted
distinct truthy (non-empty) domain, sentinel, joined by newlines. -/
def get_block_entries (domains : List Str) : Str :=
  joinNl ([BLOCK_START] ++
    ((sortedSet domains).filter (fun d => decide (d ≠ []))).map entryLine ++
    [BLOCK_END])

/-- State of the `inside_block` flag of `_strip_existing_blocks` while folding
over the lines. -/
def insideAfter : List Str → Bool → Bool
  | [], b => b
  | l :: ls, b =>
    insideAfter ls
      (if pyStrip l = BLOCK_START then true
       else if pyStrip l = BLOCK_END then false
       else b)

/-- The line filter of `_strip_existing_blocks`: drop sentinel lines and lines
between a start and an end sentinel. -/
def stripLines : List Str → Bool → List Str
  | [], _ => []
  | l :: ls, b =>
    if pyStrip l = BLOCK_START then stripLines ls true
    else if pyStrip l = BLOCK_END then stripLines ls false
    else if b then stripLines ls b
    else l :: stripLines ls b

/-- `_strip_existing_blocks(content)`: remove the lockin region, drop trailing
blank lines, re-join. -/
def strip_existing_blocks (content : Str) : Str :=
  joinNl (dropTrailingBlanks (stripLines (pySplitlines content) false))

/-- The hosts-file content written by `apply_blocks` (its pure core):
`clean + "\n\n" + block_entries + "\n"`. -/
def applyHosts (content : Str) (domains : List Str) : Str :=
  strip_existing_blocks content ++ "\n\n".toList ++ get_block_entries domains
    ++ "\n".toList

/-- The hosts-file content written by `remove_blocks` (its pure core): the
stripped content, with a final newline ensured. -/
def removeHosts (content : Str) : Str :=
  let clean := strip_existing_blocks content
  if clean.getLast? = some '\n' then clean else clean ++ "\n".toList

/-- `are_blocks_applied` on readable content with a nonempty domain list:
both sentinels occur as substrings. -/
def hostsHasSentinels (content : Str) : Bool :=
  decide (BLOCK_START <:+: content) && decide (BLOCK_END <:+: content)

/-! ### Basic line lemmas -/

theorem splitOnNl_ne_nil (s : Str) : splitOnNl s ≠ [] := by
  match s with
  | [] => simp [splitOnNl]
  | c :: rest =>
    rw [splitOnNl]
    split
    · simp
    · cases h : splitOnNl rest <;> simp

theorem splitOnNl_append (a b : Str) :
    splitOnNl (a ++ '\n' :: b) = splitOnNl a ++ splitOnNl b := by
  induction a with
  | nil => simp [splitOnNl]
  | cons c rest ih =>
    by_cases hc : c = '\n'
    · subst hc
      have h1 : splitOnNl ('\n' :: (rest ++ '\n' :: b)) =
          [] :: splitOnNl (rest ++ '\n' :: b) := by
        rw [splitOnNl, if_pos rfl]
      have h2 : splitOnNl ('\n' :: rest) = [] :: splitOnNl rest := by
        rw [splitOnNl, if_pos rfl]
      simp only [List.cons_append, h1, h2, ih]
    · have hne := splitOnNl_ne_nil rest
      cases hsp : splitOnNl rest with
      | nil => exact absurd hsp hne
      | cons l ls =>
        have h1 : splitOnNl (c :: (rest ++ '\n' :: b)) =
            (c :: l) :: (ls ++ splitOnNl b) := by
          rw [splitOnNl, if_neg hc, ih, hsp]
          rfl
        have h2 : splitOnNl (c :: rest) = (c :: l) :: ls := by
          rw [splitOnNl, if_neg hc, hsp]
        simp only [List.cons_append, h1, h2]

theorem mem_splitOnNl_no_nl {s : Str} {l : Str} (h : l ∈ splitOnNl s) :
    '\n' ∉ l := by
  induction s generalizing l with
  | nil =>
    simp [splitOnNl] at h
    subst h; simp
  | cons c rest ih =>
    rw [splitOnNl] at h
    by_cases hc : c = '\n'
    · rw [if_pos hc] at h
      rcases List.mem_cons.mp h with h' | h'
      · subst h'; simp
      · exact ih h'
    · rw [if_neg hc] at h
      have hne := splitOnNl_ne_nil rest
      cases hsp : splitOnNl rest with
      | nil => exact absurd hsp hne
      | cons l₀ ls =>
        rw [hsp] at h
        rcases List.mem_cons.mp h with h' | h'
        · subst h'
          intro hmem
          rcases List.mem_cons.mp hmem with h'' | h''
          · exact hc h''.symm
          · exact ih (l := l₀) (hsp ▸ List.mem_cons_self l₀ ls) h''
        · exact ih (l := l) (hsp ▸ List.mem_cons_of_mem l₀ h')

theorem splitOnNl_no_nl {s : Str} (h : '\n' ∉ s) : splitOnNl s = [s] := by
  induction s with
  | nil => rfl
  | cons c rest ih =>
    have hc : c ≠ '\n' := fun hc => h (hc ▸ List.mem_cons_self c rest)
    have hrest : '\n' ∉ rest := fun hr => h (List.mem_cons_of_mem c hr)
    rw [splitOnNl, if_neg hc, ih hrest]

theorem joinNl_cons (l : Str) (ls : List Str) (h : ls ≠ []) :
    joinNl (l :: ls) = l ++ '\n' :: joinNl ls := by
  cases ls with
  | nil => exact absurd rfl h
  | cons l' ls' => rfl

theorem splitOnNl_joinNl {ls : List Str} (hnl : ∀ l ∈ ls, '\n' ∉ l)
    (hne : ls ≠ []) : splitOnNl (joinNl ls) = ls := by
  induction ls with
  | nil => exact absurd rfl hne
  | cons l ls ih =>
    cases ls with
    | nil =>
      simp only [joinNl]
      exact splitOnNl_no_nl (hnl l (List.mem_cons_self l []))
    | cons l' ls' =>
      rw [joinNl_cons l (l' :: ls') (by simp), splitOnNl_append,
        splitOnNl_no_nl (hnl l (List.mem_cons_self l _)),
        ih (fun x hx => hnl x (List.mem_cons_of_mem l hx)) (by simp)]
      rfl

theorem joinNl_splitOnNl (s : Str) : joinNl (splitOnNl s) = s := by
  induction s with
  | nil => rfl
  | cons c rest ih =>
    rw [splitOnNl]
    by_cases hc : c = '\n'
    · rw [if_pos hc, joinNl_cons [] _ (splitOnNl_ne_nil rest), ih, hc]
      rfl
    · rw [if_neg hc]
      have hne := splitOnNl_ne_nil rest
      cases hsp : splitOnNl rest with
      | nil => exact absurd hsp hne
      | cons l ls =>
        rw [hsp] at ih
        show joinNl ((c :: l) :: ls) = c :: rest
        cases ls with
        | nil =>
          simp only [joinNl] at ih ⊢
          rw [ih]
        | cons l' ls' =>
          rw [joinNl_cons (c :: l) _ (by simp)]
          rw [joinNl_cons l _ (by simp)] at ih
          rw [← ih]
          rfl

/-! ### Strip-region lemmas -/

/-- The middle lines of the block region: one entry line per sorted distinct
non-empty domain. -/
def blockMid (ds : List Str) : List Str :=
  ((sortedSet ds).filter (fun d => decide (d ≠ []))).map entryLine

/-- The lines of the block region. -/
def blockLines (ds : List Str) : List Str :=
  BLOCK_START :: blockMid ds ++ [BLOCK_END]

theorem get_block_entries_eq (ds : List Str) :
    get_block_entries ds = joinNl (blockLines ds) := by
  simp [get_block_entries, blockLines, blockMid]

theorem stripLines_append (xs ys : List Str) (b : Bool) :
    stripLines (xs ++ ys) b =
      stripLines xs b ++ stripLines ys (insideAfter xs b) := by
  induction xs generalizing b with
  | nil => rfl
  | cons l ls ih =>
    simp only [List.cons_append, stripLines, insideAfter]
    split_ifs with h1 h2 h3 <;> simp [ih]

theorem mem_stripLines {xs : List Str} {b : Bool} {l : Str}
    (h : l ∈ stripLines xs b) :
    l ∈ xs ∧ pyStrip l ≠ BLOCK_START ∧ pyStrip l ≠ BLOCK_END := by
  induction xs generalizing b with
  | nil => simp [stripLines] at h
  | cons x xs ih =>
    rw [stripLines] at h
    split_ifs at h with h1 h2 h3
    · rcases ih h with ⟨hm, hs⟩
      exact ⟨List.mem_cons_of_mem _ hm, hs⟩
    · rcases ih h with ⟨hm, hs⟩
      exact ⟨List.mem_cons_of_mem _ hm, hs⟩
    · rcases ih h with ⟨hm, hs⟩
      exact ⟨List.mem_cons_of_mem _ hm, hs⟩
    · rcases List.mem_cons.mp h with h' | h'
      · subst h'
        exact ⟨List.mem_cons_self _ _, h1, h2⟩
      · rcases ih h' with ⟨hm, hs⟩
        exact ⟨List.mem_cons_of_mem _ hm, hs⟩

theorem stripLines_of_clean {xs : List Str}
    (h : ∀ l ∈ xs, pyStrip l ≠ BLOCK_START ∧ pyStrip l ≠ BLOCK_END) :
    stripLines xs false = xs ∧ insideAfter xs false = false := by
  induction xs with
  | nil => exact ⟨rfl, rfl⟩
  | cons x xs ih =>
    have hx := h x (List.mem_cons_self x xs)
    have ih' := ih fun l hl => h l (List.mem_cons_of_mem x hl)
    constructor
    · rw [stripLines, if_neg hx.1, if_neg hx.2, if_neg (by simp), ih'.1]
    · rw [insideAfter, if_neg hx.1, if_neg hx.2]
      exact ih'.2

theorem stripLines_inside_end {mid : List Str}
    (h : ∀ l ∈ mid, pyStrip l ≠ BLOCK_START ∧ pyStrip l ≠ BLOCK_END) :
    stripLines (mid ++ [BLOCK_END]) true = [] ∧
      insideAfter (mid ++ [BLOCK_END]) true = false := by
  induction mid with
  | nil =>
    constructor
    · rw [List.nil_append, stripLines, if_neg (by decide), if_pos (by decide)]
      rfl
    · rw [List.nil_append, insideAfter, if_neg (by decide), if_pos (by decide)]
      rfl
  | cons x xs ih =>
    have hx := h x (List.mem_cons_self x xs)
    have ih' := ih fun l hl => h l (List.mem_cons_of_mem x hl)
    constructor
    · rw [List.cons_append, stripLines, if_neg hx.1, if_neg hx.2,
        if_pos rfl, ih'.1]
    · rw [List.cons_append, insideAfter, if_neg hx.1, if_neg hx.2]
      exact ih'.2

theorem stripLines_blockRegion {mid : List Str} (b : Bool)
    (h : ∀ l ∈ mid, pyStrip l ≠ BLOCK_START ∧ pyStrip l ≠ BLOCK_END) :
    stripLines (BLOCK_START :: mid ++ [BLOCK_END]) b = [] ∧
      insideAfter (BLOCK_START :: mid ++ [BLOCK_END]) b = false := by
  have hs := stripLines_inside_end h
  constructor
  · rw [List.cons_append, stripLines, if_pos (by decide), hs.1]
  · rw [List.cons_append, insideAfter, if_pos (by decide)]
    exact hs.2

theorem dropWhile_dropWhile {α : Type} (p : α → Bool) (l : List α) :
    (l.dropWhile p).dropWhile p = l.dropWhile p := by
  induction l with
  | nil => rfl
  | cons a l ih =>
    rw [List.dropWhile_cons]
    split_ifs with h
    · exact ih
    · rw [List.dropWhile_cons, if_neg h]

theorem dropWhile_append_singleton {α : Type} (p : α → Bool) {a : α}
    (h : p a = false) (l : List α) :
    ∃ u, (l ++ [a]).dropWhile p = u ++ [a] := by
  induction l with
  | nil => exact ⟨[], by simp [List.dropWhile_cons, h]⟩
  | cons x l ih =>
    rw [List.cons_append, List.dropWhile_cons]
    split_ifs with hx
    · exact ih
    · exact ⟨x :: l, rfl⟩

theorem head?_dropWhile {α : Type} (p : α → Bool) (l : List α) {a : α}
    (h : (l.dropWhile p).head? = some a) : p a = false := by
  induction l with
  | nil => simp [List.dropWhile] at h
  | cons x l ih =>
    rw [List.dropWhile_cons] at h
    split_ifs at h with hx
    · exact ih h
    · simp only [List.head?_cons, Option.some.injEq] at h
      subst h
      simpa using hx

theorem dropTrailingBlanks_concat_blank (xs : List Str) {l : Str}
    (h : isBlankLine l = true) :
    dropTrailingBlanks (xs ++ [l]) = dropTrailingBlanks xs := by
  unfold dropTrailingBlanks
  rw [List.reverse_append]
  simp [List.dropWhile_cons, h]

theorem dropTrailingBlanks_idem (xs : List Str) :
    dropTrailingBlanks (dropTrailingBlanks xs) = dropTrailingBlanks xs := by
  unfold dropTrailingBlanks
  rw [List.reverse_reverse, dropWhile_dropWhile]

theorem dropTrailingBlanks_subset {xs : List Str} {l : Str}
    (h : l ∈ dropTrailingBlanks xs) : l ∈ xs := by
  unfold dropTrailingBlanks at h
  rw [List.mem_reverse] at h
  have := (List.dropWhile_suffix isBlankLine).subset h
  exact List.mem_reverse.mp this

theorem dropTrailingBlanks_last_not_blank {xs : List Str} {l : Str}
    (h : (dropTrailingBlanks xs).getLast? = some l) : isBlankLine l = false := by
  unfold dropTrailingBlanks at h
  rw [List.getLast?_reverse] at h
  exact head?_dropWhile _ _ h

theorem pySplitlines_subset {s : Str} {l : Str} (h : l ∈ pySplitlines s) :
    l ∈ splitOnNl s := by
  simp only [pySplitlines] at h
  split_ifs at h with hl
  · exact (List.dropLast_prefix _).subset h
  · exact h

/-! ### Entry-line lemmas -/

theorem pyStrip_cons_not_ws {c : Char} {t : Str} (h : c.isWhitespace = false) :
    ∃ t', pyStrip (c :: t) = c :: t' := by
  unfold pyStrip
  rw [List.dropWhile_cons, if_neg (by simp [h]), List.reverse_cons]
  obtain ⟨u, hu⟩ := dropWhile_append_singleton Char.isWhitespace h t.reverse
  refine ⟨u.reverse, ?_⟩
  rw [hu, List.reverse_append]
  rfl

theorem entryLine_cons (d : Str) :
    entryLine d = '0' :: (".0.0.0 ".toList ++ d) := by
  have h : "0.0.0.0 ".toList = '0' :: ".0.0.0 ".toList := by decide
  unfold entryLine
  rw [h]
  rfl

theorem entryLine_not_sentinel (d : Str) :
    pyStrip (entryLine d) ≠ BLOCK_START ∧ pyStrip (entryLine d) ≠ BLOCK_END := by
  obtain ⟨t', ht⟩ := pyStrip_cons_not_ws (c := '0')
    (t := ".0.0.0 ".toList ++ d) (by decide)
  rw [entryLine_cons, ht]
  constructor
  · intro hcontra
    have h0 : (('0' : Char) :: t').head? = some '0' := rfl
    rw [hcontra] at h0
    have hB : BLOCK_START.head? = some '#' := by decide
    rw [hB] at h0
    exact absurd h0 (by decide)
  · intro hcontra
    have h0 : (('0' : Char) :: t').head? = some '0' := rfl
    rw [hcontra] at h0
    have hB : BLOCK_END.head? = some '#' := by decide
    rw [hB] at h0
    exact absurd h0 (by decide)

theorem entryLine_no_nl {d : Str} (h : '\n' ∉ d) : '\n' ∉ entryLine d := by
  unfold entryLine
  intro hmem
  rcases List.mem_append.mp hmem with h' | h'
  · revert h'
    decide
  · exact h h'

theorem mem_blockMid_not_sentinel {ds : List Str} {l : Str}
    (h : l ∈ blockMid ds) :
    pyStrip l ≠ BLOCK_START ∧ pyStrip l ≠ BLOCK_END := by
  unfold blockMid at h
  rcases List.mem_map.mp h with ⟨d, _, rfl⟩
  exact entryLine_not_sentinel d

theorem mem_blockLines_no_nl {ds : List Str} (hds : ∀ d ∈ ds, '\n' ∉ d)
    {l : Str} (h : l ∈ blockLines ds) : '\n' ∉ l := by
  unfold blockLines at h
  rcases List.mem_cons.mp h with h' | h'
  · subst h'
    decide
  · rcases List.mem_append.mp h' with h'' | h''
    · unfold blockMid at h''
      rcases List.mem_map.mp h'' with ⟨d, hd, rfl⟩
      have hd' : d ∈ ds := by
        have := List.mem_filter.mp hd
        exact (Finset.mem_sort (α := Str) (· ≤ ·)).mp this.1 |> List.mem_toFinset.mp
      exact entryLine_no_nl (hds d hd')
    · rcases List.mem_singleton.mp h'' with rfl
      decide

/-! ### The hosts round-trip -/

/-- The line list from which `_strip_existing_blocks` re-joins its result. -/
def cleanLines (content : Str) : List Str :=
  dropTrailingBlanks (stripLines (pySplitlines content) false)

theorem strip_existing_blocks_eq (c : Str) :
    strip_existing_blocks c = joinNl (cleanLines c) := rfl

theorem mem_cleanLines_no_nl {c : Str} {l : Str} (h : l ∈ cleanLines c) :
    '\n' ∉ l :=
  mem_splitOnNl_no_nl
    (pySplitlines_subset (mem_stripLines (dropTrailingBlanks_subset h)).1)

theorem mem_cleanLines_not_sentinel {c : Str} {l : Str} (h : l ∈ cleanLines c) :
    pyStrip l ≠ BLOCK_START ∧ pyStrip l ≠ BLOCK_END :=
  (mem_stripLines (dropTrailingBlanks_subset h)).2

theorem splitOnNl_strip (c : Str) :
    splitOnNl (strip_existing_blocks c) =
      if cleanLines c = [] then [[]] else cleanLines c := by
  rw [strip_existing_blocks_eq]
  split_ifs with h
  · rw [h]
    rfl
  · exact splitOnNl_joinNl (fun l hl => mem_cleanLines_no_nl hl) h

theorem mem_splitOnNl_strip_not_sentinel {c : Str} {l : Str}
    (h : l ∈ splitOnNl (strip_existing_blocks c)) :
    pyStrip l ≠ BLOCK_START ∧ pyStrip l ≠ BLOCK_END := by
  rw [splitOnNl_strip] at h
  split_ifs at h with he
  · rcases List.mem_singleton.mp h with rfl
    exact ⟨by decide, by decide⟩
  · exact mem_cleanLines_not_sentinel h

theorem splitOnNl_get_block_entries {ds : List Str}
    (hds : ∀ d ∈ ds, '\n' ∉ d) :
    splitOnNl (get_block_entries ds) = blockLines ds := by
  rw [get_block_entries_eq]
  exact splitOnNl_joinNl (fun l hl => mem_blockLines_no_nl hds hl)
    (by simp [blockLines])

theorem splitOnNl_applyHosts {c : Str} {ds : List Str}
    (hds : ∀ d ∈ ds, '\n' ∉ d) :
    splitOnNl (applyHosts c ds) =
      splitOnNl (strip_existing_blocks c) ++
        [] :: (blockLines ds ++ [[]]) := by
  have harr : applyHosts c ds =
      strip_existing_blocks c ++
        '\n' :: ('\n' :: (get_block_entries ds ++ '\n' :: [])) := by
    unfold applyHosts
    simp [List.append_assoc]
  rw [harr, splitOnNl_append]
  have h2 : splitOnNl ('\n' :: (get_block_entries ds ++ '\n' :: [])) =
      [] :: (splitOnNl (get_block_entries ds) ++ [[]]) := by
    rw [splitOnNl, if_pos rfl, splitOnNl_append]
    rfl
  rw [h2, splitOnNl_get_block_entries hds]

theorem pySplitlines_applyHosts {c : Str} {ds : List Str}
    (hds : ∀ d ∈ ds, '\n' ∉ d) :
    pySplitlines (applyHosts c ds) =
      splitOnNl (strip_existing_blocks c) ++ [] :: blockLines ds := by
  simp only [pySplitlines, splitOnNl_applyHosts hds]
  have hshape : splitOnNl (strip_existing_blocks c) ++ [] :: (blockLines ds ++ [[]]) =
      (splitOnNl (strip_existing_blocks c) ++ [] :: blockLines ds) ++ [[]] := by
    simp
  rw [hshape, List.getLast?_concat, if_pos rfl, List.dropLast_concat]

theorem stripLines_pySplitlines_applyHosts {c : Str} {ds : List Str}
    (hds : ∀ d ∈ ds, '\n' ∉ d) :
    stripLines (pySplitlines (applyHosts c ds)) false =
      splitOnNl (strip_existing_blocks c) ++ [[]] := by
  rw [pySplitlines_applyHosts hds, stripLines_append]
  have hclean := @stripLines_of_clean (splitOnNl (strip_existing_blocks c))
    (fun l hl => mem_splitOnNl_strip_not_sentinel (c := c) hl)
  rw [hclean.1, hclean.2]
  have hblock := @stripLines_blockRegion (blockMid ds) false
    (fun l hl => mem_blockMid_not_sentinel hl)
  have : stripLines ([] :: blockLines ds) false = [[]] := by
    rw [stripLines, if_neg (by decide), if_neg (by decide),
      if_neg (by simp)]
    rw [show blockLines ds = BLOCK_START :: blockMid ds ++ [BLOCK_END] from rfl,
      hblock.1]
  rw [this]

theorem dropTrailingBlanks_splitOnNl_strip (c : Str) :
    dropTrailingBlanks (splitOnNl (strip_existing_blocks c)) = cleanLines c := by
  rw [splitOnNl_strip]
  split_ifs with h
  · rw [h]
    rfl
  · rw [show cleanLines c = dropTrailingBlanks (stripLines (pySplitlines c) false)
      from rfl, dropTrailingBlanks_idem]

theorem strip_applyHosts (c : Str) {ds : List Str}
    (hds : ∀ d ∈ ds, '\n' ∉ d) :
    strip_existing_blocks (applyHosts c ds) = strip_existing_blocks c := by
  rw [strip_existing_blocks_eq (applyHosts c ds)]
  unfold cleanLines
  rw [stripLines_pySplitlines_applyHosts hds,
    dropTrailingBlanks_concat_blank _ (by decide),
    dropTrailingBlanks_splitOnNl_strip, ← strip_existing_blocks_eq]

theorem getLast?_joinNl {ls : List Str} {lb : Str} (h : ls.getLast? = some lb)
    (hlb : lb ≠ []) : (joinNl ls).getLast? = lb.getLast? := by
  induction ls with
  | nil => simp at h
  | cons l ls ih =>
    cases ls with
    | nil =>
      simp only [List.getLast?_singleton, Option.some.injEq] at h
      subst h
      rfl
    | cons l' ls' =>
      have h' : (l' :: ls').getLast? = some lb := by
        rw [← h]
        rfl
      have ihx := ih h'
      have hne : joinNl (l' :: ls') ≠ [] := by
        intro hnil
        rw [hnil] at ihx
        have : lb.getLast? = none := ihx.symm
        rcases lb with _ | ⟨x, xs⟩
        · exact hlb rfl
        · rw [List.getLast?_eq_getLast _ (by simp)] at this
          cases this
      rw [joinNl_cons l (l' :: ls') (by simp),
        List.getLast?_append_of_ne_nil _ (by simp)]
      cases hj : joinNl (l' :: ls') with
      | nil => exact absurd hj hne
      | cons j js =>
        rw [← hj, show ('\n' :: joinNl (l' :: ls')).getLast? =
          (joinNl (l' :: ls')).getLast? from by rw [hj]; rfl]
        exact ihx

theorem strip_not_endswith_nl (c : Str) :
    (strip_existing_blocks c).getLast? ≠ some '\n' := by
  rw [strip_existing_blocks_eq]
  cases hcl : (cleanLines c).getLast? with
  | none =>
    rw [List.getLast?_eq_none_iff] at hcl
    rw [hcl]
    simp [joinNl]
  | some lb =>
    have hblank :=
      @dropTrailingBlanks_last_not_blank (stripLines (pySplitlines c) false)
        lb hcl
    have hlb : lb ≠ [] := by
      intro hnil
      rw [hnil] at hblank
      simp [isBlankLine] at hblank
      exact hblank (by rfl)
    rw [getLast?_joinNl hcl hlb]
    intro hcon
    have hmem : '\n' ∈ lb :=
      List.mem_of_mem_getLast? (show '\n' ∈ lb.getLast? from hcon)
    have hlbmem : lb ∈ cleanLines c :=
      List.mem_of_mem_getLast? (show lb ∈ (cleanLines c).getLast? from hcl)
    exact mem_cleanLines_no_nl hlbmem hmem

theorem removeHosts_eq (c : Str) :
    removeHosts c = strip_existing_blocks c ++ "\n".toList := by
  unfold removeHosts
  rw [if_neg (strip_not_endswith_nl c)]

theorem removeHosts_applyHosts (c : Str) {ds : List Str}
    (hds : ∀ d ∈ ds, '\n' ∉ d) :
    removeHosts (applyHosts c ds) = strip_existing_blocks c ++ "\n".toList := by
  rw [removeHosts_eq, strip_applyHosts c hds]

theorem stripTrailNl_append_nl (s : Str) :
    stripTrailNl (s ++ ['\n']) = stripTrailNl s := by
  unfold stripTrailNl
  rw [List.reverse_append]
  simp [List.dropWhile_cons]

theorem joinNl_concat_nil {A : List Str} (h : A ≠ []) :
    joinNl (A ++ [[]]) = joinNl A ++ ['\n'] := by
  induction A with
  | nil => exact absurd rfl h
  | cons a A ih =>
    cases A with
    | nil => rfl
    | cons b B =>
      rw [List.cons_append, joinNl_cons a ((b :: B) ++ [[]]) (by simp),
        joinNl_cons a (b :: B) (by simp), ih (by simp)]
      simp

theorem stripTrailNl_joinNl_pySplitlines (c : Str) :
    stripTrailNl (joinNl (pySplitlines c)) = stripTrailNl c := by
  simp only [pySplitlines]
  split_ifs with h
  · have hne := splitOnNl_ne_nil c
    have hlast : (splitOnNl c).getLast hne = [] := by
      rw [List.getLast?_eq_getLast _ hne] at h
      exact Option.some_inj.mp h
    have hsplit : (splitOnNl c).dropLast ++ [[]] = splitOnNl c := by
      conv_rhs => rw [← List.dropLast_concat_getLast hne]
      rw [hlast]
    cases hA : (splitOnNl c).dropLast with
    | nil =>
      have hc : splitOnNl c = [[]] := by
        rw [← hsplit, hA]
        rfl
      have hcnil : c = [] := by
        have hj := joinNl_splitOnNl c
        rw [hc] at hj
        exact hj.symm
      rw [hcnil]
      rfl
    | cons a A =>
      have hc : c = joinNl ((splitOnNl c).dropLast) ++ ['\n'] := by
        conv_lhs => rw [← joinNl_splitOnNl c, ← hsplit]
        rw [joinNl_concat_nil (by rw [hA]; simp)]
      conv_rhs => rw [hc]
      rw [stripTrailNl_append_nl, hA]
  · rw [joinNl_splitOnNl]

/-! ## Claim C6: block-region format -/

/-- C6: for every domain list, the block region consists of the exact start
sentinel line, then one line `0.0.0.0 <domain>` per distinct non-empty domain
in lexicographically (strictly) sorted order — duplicates removed and empty
strings skipped — then the exact end sentinel line. -/
theorem blockRegionFormat (domains : List Str) :
    ∃ mid : List Str,
      get_block_entries domains = joinNl (BLOCK_START :: mid ++ [BLOCK_END]) ∧
      mid.Sorted (· < ·) ∧
      ∀ l, l ∈ mid ↔ ∃ d ∈ domains, d ≠ [] ∧ l = entryLine d := by
  refine ⟨blockMid domains, ?_, ?_, ?_⟩
  · rw [get_block_entries_eq]
    rfl
  · have hs : (sortedSet domains).Sorted (· < ·) := Finset.sort_sorted_lt _
    have hf : ((sortedSet domains).filter
        (fun d => decide (d ≠ []))).Sorted (· < ·) := List.Pairwise.filter _ hs
    refine List.Pairwise.map entryLine ?_ hf
    intro a b hab
    exact List.Lex.append_left (fun x y => x < y) hab ("0.0.0.0 ".toList)
  · intro l
    constructor
    · intro hl
      rcases List.mem_map.mp hl with ⟨d, hd, rfl⟩
      rcases List.mem_filter.mp hd with ⟨hds, hne⟩
      refine ⟨d, ?_, by simpa using hne, rfl⟩
      exact List.mem_toFinset.mp ((Finset.mem_sort (α := Str) (· ≤ ·)).mp hds)
    · rintro ⟨d, hd, hne, rfl⟩
      refine List.mem_map.mpr ⟨d, List.mem_filter.mpr ⟨?_, by simpa using hne⟩, rfl⟩
      exact (Finset.mem_sort (α := Str) (· ≤ ·)).mpr (List.mem_toFinset.mpr hd)

/-! ## Claim C5: hosts-region purity -/

/-- C5 (as stated) is false: `apply(domains) ; remove()` also deletes trailing
whitespace-only lines of the original content, which is more than
trailing-newline normalization.  Initial content `"a\n \n"` comes back as
`"a\n"`. -/
theorem hostsRegionPurity_counterexample :
    stripTrailNl (removeHosts (applyHosts "a\n \n".toList ["x".toList])) ≠
      stripTrailNl "a\n \n".toList := by
  have h1 : sortedSet ["x".toList] = ["x".toList] := by
    simp [sortedSet]
  have hss : get_block_entries ["x".toList] =
      joinNl [BLOCK_START, entryLine "x".toList, BLOCK_END] := by
    rw [get_block_entries, h1]
    rfl
  rw [show applyHosts "a\n \n".toList ["x".toList] =
      strip_existing_blocks "a\n \n".toList ++ "\n\n".toList ++
        get_block_entries ["x".toList] ++ "\n".toList from rfl, hss]
  decide

/-- C5 (amended): for newline-free domains, every `apply` — on arbitrary
initial hosts content, including content already holding a block region —
leaves precisely one delimited block region (one start and one end sentinel
line); and when the initial content has no sentinel lines and no trailing
whitespace-only lines, `apply(domains) ; remove()` restores it modulo
trailing-newline normalization. -/
theorem hostsRegionPurity (c : Str) (ds : List Str)
    (hds : ∀ d ∈ ds, '\n' ∉ d) :
    ((∀ l ∈ pySplitlines c,
        pyStrip l ≠ BLOCK_START ∧ pyStrip l ≠ BLOCK_END) →
      dropTrailingBlanks (pySplitlines c) = pySplitlines c →
      stripTrailNl (removeHosts (applyHosts c ds)) = stripTrailNl c) ∧
      (pySplitlines (applyHosts c ds)).countP
          (fun l => decide (pyStrip l = BLOCK_START)) = 1 ∧
      (pySplitlines (applyHosts c ds)).countP
          (fun l => decide (pyStrip l = BLOCK_END)) = 1 := by
  refine ⟨?_, ?_, ?_⟩
  · intro hsent htrail
    have hclean : cleanLines c = pySplitlines c := by
      unfold cleanLines
      rw [(stripLines_of_clean hsent).1, htrail]
    rw [removeHosts_applyHosts c hds]
    have hnl : ("\n".toList : Str) = ['\n'] := by decide
    rw [hnl, stripTrailNl_append_nl, strip_existing_blocks_eq, hclean]
    exact stripTrailNl_joinNl_pySplitlines c
  · rw [pySplitlines_applyHosts hds, List.countP_append]
    have h0 : (splitOnNl (strip_existing_blocks c)).countP
        (fun l => decide (pyStrip l = BLOCK_START)) = 0 := by
      rw [List.countP_eq_zero]
      intro a ha
      simpa using (mem_splitOnNl_strip_not_sentinel ha).1
    have hmid : (blockMid ds).countP
        (fun l => decide (pyStrip l = BLOCK_START)) = 0 := by
      rw [List.countP_eq_zero]
      intro a ha
      simpa using (mem_blockMid_not_sentinel ha).1
    rw [h0]
    simp only [blockLines, List.countP_cons, List.cons_append,
      List.countP_append, hmid]
    norm_num [List.countP_cons]
    decide
  · rw [pySplitlines_applyHosts hds, List.countP_append]
    have h0 : (splitOnNl (strip_existing_blocks c)).countP
        (fun l => decide (pyStrip l = BLOCK_END)) = 0 := by
      rw [List.countP_eq_zero]
      intro a ha
      simpa using (mem_splitOnNl_strip_not_sentinel ha).2
    have hmid : (blockMid ds).countP
        (fun l => decide (pyStrip l = BLOCK_END)) = 0 := by
      rw [List.countP_eq_zero]
      intro a ha
      simpa using (mem_blockMid_not_sentinel ha).2
    rw [h0]
    simp only [blockLines, List.countP_cons, List.cons_append,
      List.countP_append, hmid]
    norm_num [List.countP_cons]
    decide

/-- Witness for `hostsRegionPurity` at concrete input `"x\ny\n"` with domains
`["b.com", "a.com", "a.com"]`, including the one-region property for the
repeated apply (whose input already holds a block region). -/
theorem hostsRegionPurity_witness :
    stripTrailNl (removeHosts (applyHosts "x\ny\n".toList
        ["b.com".toList, "a.com".toList, "a.com".toList])) =
      stripTrailNl "x\ny\n".toList ∧
      (pySplitlines (applyHosts "x\ny\n".toList
          ["b.com".toList, "a.com".toList, "a.com".toList])).countP
          (fun l => decide (pyStrip l = BLOCK_START)) = 1 ∧
      (pySplitlines (applyHosts "x\ny\n".toList
          ["b.com".toList, "a.com".toList, "a.com".toList])).countP
          (fun l => decide (pyStrip l = BLOCK_END)) = 1 ∧
      (pySplitlines (applyHosts (applyHosts "x\ny\n".toList
          ["b.com".toList, "a.com".toList, "a.com".toList])
          ["c.net".toList])).countP
          (fun l => decide (pyStrip l = BLOCK_START)) = 1 := by
  have h := hostsRegionPurity "x\ny\n".toList
    ["b.com".toList, "a.com".toList, "a.com".toList] (by decide)
  have h2 := hostsRegionPurity
    (applyHosts "x\ny\n".toList
      ["b.com".toList, "a.com".toList, "a.com".toList])
    ["c.net".toList] (by decide)
  exact ⟨h.1 (by decide) (by decide), h.2.1, h.2.2, h2.2.1⟩

/-! ## Signed session store (`src/lockin/session.py`) -/

/-- The Session dataclass.  `float` timestamps are `ℚ`, the `int` duration is
`ℤ`. -/
structure Session where
  profile_name : Str
  start_time : ℚ
  end_time : ℚ
  duration_seconds : ℤ
  blocked_domains : List Str
  blocked_apps : List Str
  hmac_signature : Str
deriving DecidableEq

/-- The canonical signing payload of `_compute_hmac`: every field except
`hmac_signature`, in sorted key order (`blocked_apps`, `blocked_domains`,
`duration_seconds`, `end_time`, `profile_name`, `start_time`).  It stands for
the sorted-keys canonical JSON encoding fed to the MAC, which is injective on
these values. -/
abbrev SigPayload := List Str × List Str × ℤ × ℚ × Str × ℚ

def signingPayload (s : Session) : SigPayload :=
  (s.blocked_apps, s.blocked_domains, s.duration_seconds, s.end_time,
    s.profile_name, s.start_time)

/-- `Session.sign`: set `hmac_signature` to the MAC of the payload.  The
development is parameterised over `mac`, the model of the keyed
HMAC-SHA-256. -/
def Session.sign (mac : SigPayload → Str) (s : Session) : Session :=
  { s with hmac_signature := mac (signingPayload s) }

/-- `Session.verify`: recompute the MAC over the payload and compare
(`hmac.compare_digest` is equality). -/
def Session.verify (mac : SigPayload → Str) (s : Session) : Bool :=
  decide (s.hmac_signature = mac (signingPayload s))

/-- `Session.is_clock_tampered` evaluated at wall-clock `now`. -/
def Session.is_clock_tampered (s : Session) (now : ℚ) : Bool :=
  if now < s.start_time then true
  else if now - s.start_time > (s.duration_seconds : ℚ) * 2 then true
  else false

/-- `Session.is_expired` evaluated at wall-clock `now`:
`time.time() >= self.end_time`. -/
def Session.is_expired (s : Session) (now : ℚ) : Bool :=
  decide (now ≥ s.end_time)

/-! ## Claim C2: the clock-sanity window -/

/-- C2: for every session `s` and time `t`, `is_clock_tampered` is true iff
`t < s.start_time` or `t - s.start_time > 2 * s.duration_seconds`. -/
theorem clockSanityWindow (s : Session) (t : ℚ) :
    s.is_clock_tampered t = true ↔
      (t < s.start_time ∨ t - s.start_time > 2 * (s.duration_seconds : ℚ)) := by
  unfold Session.is_clock_tampered
  rw [mul_comm (s.duration_seconds : ℚ) 2]
  split_ifs with h1 h2
  · simp [h1]
  · simp [h2]
  · simp [h1, h2]

/-! ## Claim C3: signature round-trip -/

/-- `r'` arises from `r` by rewriting exactly one non-signature field. -/
def SingleFieldMutation (r r' : Session) : Prop :=
  (∃ x, r' = { r with profile_name := x }) ∨
  (∃ x, r' = { r with start_time := x }) ∨
  (∃ x, r' = { r with end_time := x }) ∨
  (∃ x, r' = { r with duration_seconds := x }) ∨
  (∃ x, r' = { r with blocked_domains := x }) ∨
  (∃ x, r' = { r with blocked_apps := x })

theorem singleFieldMutation_payload {r r' : Session}
    (h : SingleFieldMutation r r') :
    r'.hmac_signature = r.hmac_signature ∧
      (signingPayload r' = signingPayload r → r' = r) := by
  rcases h with ⟨x, rfl⟩ | ⟨x, rfl⟩ | ⟨x, rfl⟩ | ⟨x, rfl⟩ | ⟨x, rfl⟩ | ⟨x, rfl⟩ <;>
    refine ⟨rfl, fun hp => ?_⟩ <;>
    · simp only [signingPayload, Prod.mk.injEq] at hp
      simp_all

/-- C3: for an injective MAC, `verify (sign r)` holds for every record, and
any single-field mutation `r' ≠ r` of a verified record `r` fails
verification. -/
theorem signatureRoundTrip (mac : SigPayload → Str)
    (hinj : Function.Injective mac) :
    (∀ r : Session, (Session.sign mac r).verify mac = true) ∧
    (∀ r r' : Session, r.verify mac = true → SingleFieldMutation r r' →
      r' ≠ r → r'.verify mac = false) := by
  constructor
  · intro r
    simp [Session.sign, Session.verify, signingPayload]
  · intro r r' hv hm hne
    have hv' := of_decide_eq_true hv
    rcases singleFieldMutation_payload hm with ⟨hsig, hpay⟩
    cases h : r'.verify mac with
    | false => rfl
    | true =>
      exfalso
      have h2 := of_decide_eq_true h
      have h3 : mac (signingPayload r') = mac (signingPayload r) := by
        rw [← h2, hsig, hv']
      exact hne (hpay (hinj h3))

/-! ### A concrete injective MAC for witnesses -/

/-- Little-endian binary coding of a natural number, fuelled to keep the
recursion structural (the fuel argument only needs `n ≤ fuel`). -/
def natToBitsAux : ℕ → ℕ → Str
  | 0, _ => []
  | fuel + 1, n =>
    if n = 0 then []
    else (if n % 2 = 1 then '1' else '0') :: natToBitsAux fuel (n / 2)

def natToBits (n : ℕ) : Str := natToBitsAux n n

def bitsToNat : Str → ℕ
  | [] => 0
  | c :: r => (if c = '1' then 1 else 0) + 2 * bitsToNat r

theorem bitsToNat_natToBitsAux :
    ∀ fuel n, n ≤ fuel → bitsToNat (natToBitsAux fuel n) = n := by
  intro fuel
  induction fuel with
  | zero =>
    intro n hn
    interval_cases n
    rfl
  | succ fuel ih =>
    intro n hn
    rw [natToBitsAux]
    by_cases h0 : n = 0
    · simp [h0, bitsToNat]
    · rw [if_neg h0]
      have hrec : n / 2 ≤ fuel := by omega
      by_cases h1 : n % 2 = 1
      · rw [if_pos h1, bitsToNat, ih (n / 2) hrec, if_pos rfl]
        omega
      · rw [if_neg h1, bitsToNat, ih (n / 2) hrec, if_neg (by decide)]
        omega

theorem bitsToNat_natToBits (n : ℕ) : bitsToNat (natToBits n) = n :=
  bitsToNat_natToBitsAux n n le_rfl

theorem natToBits_injective : Function.Injective natToBits := by
  intro a b h
  rw [← bitsToNat_natToBits a, ← bitsToNat_natToBits b, h]

/-- Self-delimiting code of a list of naturals. -/
def natListCode : List ℕ → ℕ
  | [] => 0
  | n :: r => Nat.pair n (natListCode r) + 1

theorem natListCode_injective : Function.Injective natListCode := by
  intro a b h
  induction a generalizing b with
  | nil =>
    cases b with
    | nil => rfl
    | cons m s => simp [natListCode] at h
  | cons n r ih =>
    cases b with
    | nil => simp [natListCode] at h
    | cons m s =>
      simp only [natListCode, Nat.add_right_cancel_iff] at h
      obtain ⟨h1, h2⟩ := Nat.pair_eq_pair.mp h
      rw [h1, ih h2]

theorem char_toNat_injective : Function.Injective Char.toNat := by
  intro a b h
  have ha : Char.ofNat a.toNat = a := Char.ofNat_toNat a
  have hb : Char.ofNat b.toNat = b := Char.ofNat_toNat b
  rw [← ha, ← hb, h]

def strCode (s : Str) : ℕ := natListCode (s.map Char.toNat)

theorem strCode_injective : Function.Injective strCode := by
  intro a b h
  exact List.map_injective_iff.mpr char_toNat_injective (natListCode_injective h)

def intCode (n : ℤ) : ℕ := if 0 ≤ n then 2 * n.toNat else 2 * (-n).toNat + 1

theorem intCode_injective : Function.Injective intCode := by
  intro a b h
  unfold intCode at h
  split_ifs at h <;> omega

def ratCode (q : ℚ) : ℕ := Nat.pair (intCode q.num) q.den

theorem ratCode_injective : Function.Injective ratCode := by
  intro a b h
  obtain ⟨h1, h2⟩ := Nat.pair_eq_pair.mp h
  exact Rat.ext (intCode_injective h1) h2

def strListCode (l : List Str) : ℕ := natListCode (l.map strCode)

theorem strListCode_injective : Function.Injective strListCode := by
  intro a b h
  exact List.map_injective_iff.mpr strCode_injective (natListCode_injective h)

def payloadCode (p : SigPayload) : ℕ :=
  Nat.pair (strListCode p.1) (Nat.pair (strListCode p.2.1)
    (Nat.pair (intCode p.2.2.1) (Nat.pair (ratCode p.2.2.2.1)
      (Nat.pair (strCode p.2.2.2.2.1) (ratCode p.2.2.2.2.2)))))

theorem payloadCode_injective : Function.Injective payloadCode := by
  intro a b h
  obtain ⟨a1, a2, a3, a4, a5, a6⟩ := a
  obtain ⟨b1, b2, b3, b4, b5, b6⟩ := b
  unfold payloadCode at h
  simp only at h
  obtain ⟨h1, h⟩ := Nat.pair_eq_pair.mp h
  obtain ⟨h2, h⟩ := Nat.pair_eq_pair.mp h
  obtain ⟨h3, h⟩ := Nat.pair_eq_pair.mp h
  obtain ⟨h4, h⟩ := Nat.pair_eq_pair.mp h
  obtain ⟨h5, h6⟩ := Nat.pair_eq_pair.mp h
  rw [strListCode_injective h1, strListCode_injective h2, intCode_injective h3,
    ratCode_injective h4, strCode_injective h5, ratCode_injective h6]

/-- A concrete injective MAC, used only to discharge witnesses. -/
def macW (p : SigPayload) : Str := natToBits (payloadCode p)

theorem macW_injective : Function.Injective macW := fun _ _ h =>
  payloadCode_injective (natToBits_injective h)

/-- Witness for `signatureRoundTrip`: the all-empty record signed with the
concrete injective MAC verifies, and bumping its `duration_seconds` breaks
verification. -/
theorem signatureRoundTrip_witness :
    (Session.sign macW ⟨[], 0, 0, 0, [], [], []⟩).verify macW = true ∧
      Session.verify macW
        { Session.sign macW ⟨[], 0, 0, 0, [], [], []⟩ with
          duration_seconds := 1 } = false := by
  have h := signatureRoundTrip macW macW_injective
  refine ⟨h.1 _, ?_⟩
  refine h.2 (Session.sign macW ⟨[], 0, 0, 0, [], [], []⟩) _ (h.1 _) ?_ ?_
  · exact Or.inr (Or.inr (Or.inr (Or.inl ⟨1, rfl⟩)))
  · intro hcon
    have := congrArg Session.duration_seconds hcon
    simp [Session.sign] at this

/-! ## App termination (`src/lockin/apps.py`) -/

/-- Python `str.lower()` (ASCII case folding suffices for app/process
names). -/
def pyLower (s : Str) : Str := s.map Char.toLower

/-- `is_app_running(app_name)` over the process-name table `procs`:
`app_name.lower() in proc_name.lower()` — case-insensitive substring. -/
def is_app_running (procs : List Str) (app_name : Str) : Bool :=
  procs.any (fun p => decide (pyLower app_name <:+: pyLower p))

/-- `kill_app`: try the graceful osascript quit, then `killall`; the
environment decides each attempt's outcome. -/
def kill_app (gracefulOk forcefulOk : Str → Bool) (app_name : Str) : Bool :=
  gracefulOk app_name || forcefulOk app_name

/-- `kill_blocked_apps`: for each blocked name, if some matching process runs
and the kill attempt succeeds, record the name. -/
def kill_blocked_apps (procs : List Str) (gracefulOk forcefulOk : Str → Bool)
    (app_names : List Str) : List Str :=
  app_names.filter
    (fun a => is_app_running procs a && kill_app gracefulOk forcefulOk a)

/-- C10: the running-app check matches by case-insensitive substring against
process names, and `kill_blocked_apps` returns exactly those blocked names for
which such a process was found and the quit-or-kill attempt succeeded. -/
theorem appMatchSemantics (procs : List Str) (gOk fOk : Str → Bool)
    (app_names : List Str) :
    (∀ a, is_app_running procs a = true ↔
      ∃ p ∈ procs, pyLower a <:+: pyLower p) ∧
    (∀ a, a ∈ kill_blocked_apps procs gOk fOk app_names ↔
      a ∈ app_names ∧ is_app_running procs a = true ∧
        (gOk a || fOk a) = true) := by
  constructor
  · intro a
    simp [is_app_running, List.any_eq_true]
  · intro a
    simp [kill_blocked_apps, List.mem_filter, kill_app, Bool.and_eq_true,
      and_assoc]

/-! ## Presets and profiles (`src/lockin/presets.py`, `src/lockin/config.py`) -/

def SUBDOMAIN_PREFIXES : List Str :=
  ["".toList, "www.".toList, "m.".toList, "api.".toList, "mobile.".toList,
    "app.".toList]

structure Preset where
  name : Str
  description : Str
  domains : List Str
  apps : List Str
deriving DecidableEq

/-- `Preset.expand_domains`: each domain with each subdomain prefix, in
domain-major order. -/
def Preset.expand_domains (p : Preset) : List Str :=
  p.domains.flatMap (fun d => SUBDOMAIN_PREFIXES.map (fun pre => pre ++ d))

/-- The built-in `PRESETS` table. -/
def PRESETS : List (Str × Preset) :=
  [("social".toList,
    ⟨"social".toList, "Social media platforms".toList,
      ["x.com".toList, "twitter.com".toList, "facebook.com".toList,
        "instagram.com".toList, "tiktok.com".toList, "reddit.com".toList,
        "threads.net".toList, "snapchat.com".toList, "linkedin.com".toList],
      ["Discord".toList]⟩),
   ("entertainment".toList,
    ⟨"entertainment".toList, "Streaming and entertainment".toList,
      ["youtube.com".toList, "netflix.com".toList, "twitch.tv".toList,
        "hulu.com".toList, "disneyplus.com".toList, "primevideo.com".toList,
        "spotify.com".toList],
      ["Spotify".toList]⟩),
   ("news".toList,
    ⟨"news".toList, "News websites".toList,
      ["news.ycombinator.com".toList, "cnn.com".toList, "bbc.com".toList,
        "nytimes.com".toList, "theguardian.com".toList],
      []⟩),
   ("communication".toList,
    ⟨"communication".toList, "Messaging, email, and chat".toList,
      ["web.whatsapp.com".toList, "whatsapp.com".toList,
        "mail.google.com".toList, "gmail.com".toList,
        "mail.superhuman.com".toList, "superhuman.com".toList],
      ["WhatsApp".toList, "Messages".toList, "Superhuman".toList,
        "Mail".toList]⟩),
   ("gaming".toList,
    ⟨"gaming".toList, "Gaming platforms".toList,
      ["steampowered.com".toList, "store.steampowered.com".toList,
        "epicgames.com".toList, "riotgames.com".toList],
      ["Steam".toList, "Epic Games Launcher".toList]⟩)]

/-- Python `dict.get` over an association list. -/
def dictGet {β : Type} (k : Str) (d : List (Str × β)) : Option β :=
  (d.find? (fun kv => decide (kv.1 = k))).map Prod.snd

/-- `list(dict.fromkeys(l))`: deduplicate keeping first occurrences. -/
def dedupFirst : List Str → List Str
  | [] => []
  | x :: xs => x :: (dedupFirst xs).filter (fun y => decide (y ≠ x))

structure Profile where
  name : Str
  presets : List Str
  custom_sites : List Str
  blocked_apps : List Str
deriving DecidableEq

structure AlwaysBlocked where
  sites : List Str
  apps : List Str
deriving DecidableEq

structure Schedule where
  name : Str
  profile : Str
  days : List Str
  start_time : Str
  duration_minutes : ℤ
  timezone : Str
deriving DecidableEq

/-- The parts of `Config` the enforcement core reads (screenshot settings are
never consumed by it). -/
structure Config where
  profiles : List (Str × Profile)
  schedules : List (Str × Schedule)
  always_blocked : AlwaysBlocked

/-- `Profile.resolve_domains` over a preset table. -/
def Profile.resolve_domains (presetsTable : List (Str × Preset))
    (p : Profile) : List Str :=
  dedupFirst
    ((p.presets.flatMap fun pn =>
      match dictGet pn presetsTable with
      | some pr => pr.expand_domains
      | none => []) ++
      p.custom_sites.flatMap fun site =>
        SUBDOMAIN_PREFIXES.map fun pre => pre ++ site)

/-- `Profile.resolve_apps` over a preset table. -/
def Profile.resolve_apps (presetsTable : List (Str × Preset))
    (p : Profile) : List Str :=
  dedupFirst
    ((p.presets.flatMap fun pn =>
      match dictGet pn presetsTable with
      | some pr => pr.apps
      | none => []) ++ p.blocked_apps)

/-- `resolve_blocked_lists`: profile lists extended by the always-blocked
items not already present. -/
def resolve_blocked_lists (presetsTable : List (Str × Preset))
    (profile : Profile) (ab : AlwaysBlocked) : List Str × List Str :=
  let blocked_domains := profile.resolve_domains presetsTable
  let blocked_apps := profile.resolve_apps presetsTable
  let blocked_domains := ab.sites.foldl
    (fun acc site => SUBDOMAIN_PREFIXES.foldl
      (fun acc2 pre => if (pre ++ site) ∈ acc2 then acc2 else acc2 ++ [pre ++ site])
      acc)
    blocked_domains
  let blocked_apps := ab.apps.foldl
    (fun acc a => if a ∈ acc then acc else acc ++ [a]) blocked_apps
  (blocked_domains, blocked_apps)

/-! ### Store operations -/

/-- The on-disk session file: `none` = absent, `some none` = present but
unparseable, `some (some s)` = parseable record `s`. -/
abbrev SessFile := Option (Option Session)

/-- `load_session`: `none` on a missing or unparseable file; no
verification. -/
def load_session (file : SessFile) : Option Session :=
  file.bind id

/-- `get_active_session`: load, verify, drop expired. -/
def get_active_session (mac : SigPayload → Str) (file : SessFile) (now : ℚ) :
    Option Session :=
  match load_session file with
  | none => none
  | some s =>
    if s.verify mac = true then
      if s.is_expired now = true then none else some s
    else none

/-- `create_session`: build the record with `end_time = now + duration`, sign
it.  It performs no existing-session check. -/
def create_session (mac : SigPayload → Str) (profile_name : Str)
    (duration_seconds : ℤ) (blocked_domains blocked_apps : List Str)
    (now : ℚ) : Session :=
  Session.sign mac
    { profile_name := profile_name
      start_time := now
      end_time := now + (duration_seconds : ℚ)
      duration_seconds := duration_seconds
      blocked_domains := blocked_domains
      blocked_apps := blocked_apps
      hmac_signature := [] }

/-- `create_session` followed by `save_session`: the file is overwritten
unconditionally. -/
def create_session_store (mac : SigPayload → Str) (profile_name : Str)
    (duration_seconds : ℤ) (blocked_domains blocked_apps : List Str)
    (now : ℚ) (_file : SessFile) : Session × SessFile :=
  let s := create_session mac profile_name duration_seconds blocked_domains
    blocked_apps now
  (s, some (some s))

/-- The trivial MAC instantiation (every signature is the empty string); it
verifies every freshly written record and is adequate wherever injectivity is
not needed. -/
def macNull : SigPayload → Str := fun _ => []

/-! ## Begin-Session launcher (`src/lockin/cli.py`) -/

/-- Decimal digits to a natural number. -/
def digitsToNat (ds : Str) : ℕ :=
  ds.foldl (fun acc c => 10 * acc + (c.toNat - 48)) 0

/-- One optional group `(?:(\d+)u)?` of `_parse_duration`'s regex: consume
leading digits iff they are followed by the unit letter. -/
def chompNum (unit : Char) (s : Str) : Option ℕ × Str :=
  let ds := s.takeWhile Char.isDigit
  let rest := s.dropWhile Char.isDigit
  if ds ≠ [] ∧ rest.head? = some unit then (some (digitsToNat ds), rest.tail)
  else (none, s)

/-- `_parse_duration`: fullmatch of `(?:(\d+)h)?(?:(\d+)m)?(?:(\d+)s)?` on the
stripped input, requiring at least one matched group and a positive total. -/
def parse_duration (duration_str : Str) : Option ℤ :=
  let s0 := pyStrip duration_str
  let hp := chompNum 'h' s0
  let mp := chompNum 'm' hp.2
  let sp := chompNum 's' mp.2
  if sp.2 ≠ [] then none
  else if hp.1 = none ∧ mp.1 = none ∧ sp.1 = none then none
  else
    let total : ℤ := (hp.1.getD 0 : ℕ) * 3600 + (mp.1.getD 0 : ℕ) * 60 +
      (sp.1.getD 0 : ℕ)
    if total > 0 then some total else none

/-- Result of the argument loop of `_handle_start_session_shortcut`. -/
inductive ArgsResult where
  | err
  | ok (profile : Option Str) (durationStr : Str)
deriving DecidableEq

/-- The argument loop: `--duration` with a following value sets the duration
string; the first other argument becomes the profile; a second one is an
error.  A trailing `--duration` without a value is consumed as the profile
when none is set yet. -/
def parseStartArgs : List Str → Option Str → Str → ArgsResult
  | [], profile, dur => .ok profile dur
  | a :: rest, profile, dur =>
    match rest with
    | v :: rest' =>
      if a = "--duration".toList then parseStartArgs rest' profile v
      else if profile = none then parseStartArgs (v :: rest') (some a) dur
      else .err
    | [] =>
      if profile = none then .ok (some a) dur
      else .err

/-- Outcomes of the external calls made by the launcher. -/
structure CliEnv where
  daemonInstalled : Bool
  installOk : Bool
  applyOk : Bool

/-- `_do_start_session` run as root: the exit code (0 = fell through to the
live countdown and terminated normally) and the session file as left on disk.
`kill_blocked_apps` is also invoked on the success path but does not affect
either. -/
def do_start_session (mac : SigPayload → Str)
    (presetsTable : List (Str × Preset)) (config : Config) (env : CliEnv)
    (file : SessFile) (now : ℚ) (profile_name : Str) (duration_seconds : ℤ) :
    ℕ × SessFile :=
  match get_active_session mac file now with
  | some _ => (1, file)
  | none =>
    match dictGet profile_name config.profiles with
    | none => (1, file)
    | some profile =>
      let resolved := resolve_blocked_lists presetsTable profile
        config.always_blocked
      if resolved.1 = [] ∧ resolved.2 = [] then (1, file)
      else if ¬env.daemonInstalled ∧ ¬env.installOk then (1, file)
      else if resolved.1 ≠ [] ∧ env.applyOk = false then (1, file)
      else
        (0, some (some (create_session mac profile_name duration_seconds
          resolved.1 resolved.2 now)))

/-- `_handle_start_session_shortcut`: require root, parse arguments, parse the
duration, then start. -/
def handle_start_session_shortcut (mac : SigPayload → Str)
    (presetsTable : List (Str × Preset)) (config : Config) (env : CliEnv)
    (file : SessFile) (now : ℚ) (euid : ℕ) (args : List Str) :
    ℕ × SessFile :=
  if euid ≠ 0 then (1, file)
  else
    match parseStartArgs args none "1h".toList with
    | .err => (1, file)
    | .ok profile durStr =>
      match profile with
      | none => (1, file)
      | some pn =>
        if pn = [] then (1, file)
        else
          match parse_duration durStr with
          | none => (1, file)
          | some dur =>
            do_start_session mac presetsTable config env file now pn dur

/-! ## Claim C4: the create guard -/

/-- A fixture record, verified under `macNull` and unexpired at time 50. -/
def sessFix : Session := ⟨"p".toList, 0, 100, 100, [], [], []⟩

/-- C4 counterexample: with a verified non-expired record at rest, the store's
create operation still overwrites the file — `create_session` itself performs
no existing-session check. -/
theorem createGuard_counterexample :
    (get_active_session macNull (some (some sessFix)) 50).isSome = true ∧
      (create_session_store macNull "q".toList 10 [] [] 50
          (some (some sessFix))).2 ≠ some (some sessFix) := by
  constructor
  · decide
  · intro h
    have := congrArg (fun f => (load_session f).map Session.profile_name) h
    simp [create_session_store, create_session, Session.sign, load_session,
      sessFix] at this

/-- C4 (amended): the at-most-one-record invariant is enforced by the callers:
the Begin-Session launcher exits (code 1) without writing whenever a verified
non-expired record exists; `create_session` itself writes unconditionally. -/
theorem createGuardCallers (mac : SigPayload → Str)
    (presetsTable : List (Str × Preset)) (config : Config) (env : CliEnv)
    (file : SessFile) (now : ℚ) (pn : Str) (dur : ℤ)
    (h : (get_active_session mac file now).isSome = true) :
    do_start_session mac presetsTable config env file now pn dur = (1, file) := by
  unfold do_start_session
  cases hga : get_active_session mac file now with
  | none => rw [hga] at h; simp at h
  | some s => rfl

/-- Witness for `createGuardCallers` on the fixture record. -/
theorem createGuardCallers_witness :
    do_start_session macNull PRESETS ⟨[], [], ⟨[], []⟩⟩ ⟨true, true, true⟩
        (some (some sessFix)) 50 "q".toList 10 = (1, some (some sessFix)) :=
  createGuardCallers macNull PRESETS ⟨[], [], ⟨[], []⟩⟩ ⟨true, true, true⟩
    (some (some sessFix)) 50 "q".toList 10 (by decide)

/-! ## Claim C8: launcher exit codes -/

/-- An apps-only fixture profile and config. -/
def profileFix : Profile := ⟨"w".toList, [], [], ["Discord".toList]⟩

def configFix : Config := ⟨[("w".toList, profileFix)], [], ⟨[], []⟩⟩

/-- C8 counterexample: without host-administrator privilege the launcher exits
with code 1, not 2. -/
theorem exitCodes_counterexample :
    (handle_start_session_shortcut macNull PRESETS configFix ⟨true, true, true⟩
        none 0 501 ["w".toList]).1 = 1 ∧
      (handle_start_session_shortcut macNull PRESETS configFix
          ⟨true, true, true⟩ none 0 501 ["w".toList]).1 ≠ 2 := by
  constructor
  · rfl
  · decide

/-- C8 (amended): the launcher knows only exit codes 0 and 1 — code 1 for
every failure (privilege missing, bad arguments, bad duration, session already
active, profile not found, nothing to block, daemon-install failure,
block-apply failure) and code 0 on success. -/
theorem exitCodes (mac : SigPayload → Str) (presetsTable : List (Str × Preset))
    (config : Config) (env : CliEnv) (file : SessFile) (now : ℚ) :
    (∀ euid args,
      (handle_start_session_shortcut mac presetsTable config env file now
        euid args).1 = 0 ∨
      (handle_start_session_shortcut mac presetsTable config env file now
        euid args).1 = 1) ∧
    (∀ euid args, euid ≠ 0 →
      handle_start_session_shortcut mac presetsTable config env file now
        euid args = (1, file)) ∧
    (∀ pn dur, (get_active_session mac file now).isSome = true →
      do_start_session mac presetsTable config env file now pn dur =
        (1, file)) ∧
    (∀ pn dur, get_active_session mac file now = none →
      dictGet pn config.profiles = none →
      do_start_session mac presetsTable config env file now pn dur =
        (1, file)) ∧
    (∀ pn dur profile, get_active_session mac file now = none →
      dictGet pn config.profiles = some profile →
      resolve_blocked_lists presetsTable profile config.always_blocked =
        ([], []) →
      do_start_session mac presetsTable config env file now pn dur =
        (1, file)) ∧
    (∀ pn dur profile, get_active_session mac file now = none →
      dictGet pn config.profiles = some profile →
      ¬((resolve_blocked_lists presetsTable profile config.always_blocked).1 = []
        ∧ (resolve_blocked_lists presetsTable profile config.always_blocked).2 = []) →
      (env.daemonInstalled = true ∨ env.installOk = true) →
      ((resolve_blocked_lists presetsTable profile config.always_blocked).1 = []
        ∨ env.applyOk = true) →
      do_start_session mac presetsTable config env file now pn dur =
        (0, some (some (create_session mac pn dur
          (resolve_blocked_lists presetsTable profile config.always_blocked).1
          (resolve_blocked_lists presetsTable profile config.always_blocked).2
          now)))) := by
  refine ⟨?_, ?_, ?_, ?_, ?_, ?_⟩
  · intro euid args
    unfold handle_start_session_shortcut
    split_ifs with h1
    · right; rfl
    · cases parseStartArgs args none "1h".toList with
      | err => right; rfl
      | ok profile durStr =>
        dsimp only
        cases profile with
        | none => right; rfl
        | some pn =>
          dsimp only
          by_cases hpn : pn = []
          · rw [if_pos hpn]; right; rfl
          · rw [if_neg hpn]
            cases parse_duration durStr with
            | none => right; rfl
            | some dur =>
              dsimp only
              unfold do_start_session
              cases get_active_session mac file now with
              | some s => right; rfl
              | none =>
                dsimp only
                cases dictGet pn config.profiles with
                | none => right; rfl
                | some profile =>
                  dsimp only
                  split_ifs
                  · right; rfl
                  · right; rfl
                  · right; rfl
                  · left; rfl
  · intro euid args h
    unfold handle_start_session_shortcut
    rw [if_pos h]
  · intro pn dur h
    unfold do_start_session
    cases hga : get_active_session mac file now with
    | none => rw [hga] at h; simp at h
    | some s => rfl
  · intro pn dur h1 h2
    unfold do_start_session
    rw [h1, h2]
  · intro pn dur profile h1 h2 h3
    unfold do_start_session
    rw [h1, h2]
    dsimp only
    rw [h3, if_pos ⟨rfl, rfl⟩]
  · intro pn dur profile h1 h2 h3 h4 h5
    unfold do_start_session
    rw [h1, h2]
    dsimp only
    have hA : ¬(¬env.daemonInstalled = true ∧ ¬env.installOk = true) := by
      intro hcon
      rcases h4 with h4 | h4
      · exact hcon.1 h4
      · exact hcon.2 h4
    have hB : ¬((resolve_blocked_lists presetsTable profile
        config.always_blocked).1 ≠ [] ∧ env.applyOk = false) := by
      intro hcon
      rcases h5 with h5 | h5
      · exact hcon.1 h5
      · rw [h5] at hcon
        exact absurd hcon.2 (by decide)
    rw [if_neg h3, if_neg hA, if_neg hB]

/-- Witness for `exitCodes`: non-root exits 1; an active session exits 1; an
unknown profile exits 1; the success path exits 0. -/
theorem exitCodes_witness :
    handle_start_session_shortcut macNull PRESETS configFix ⟨true, true, true⟩
        none 0 501 ["w".toList] = (1, none) ∧
    do_start_session macNull PRESETS configFix ⟨true, true, true⟩
        (some (some sessFix)) 50 "w".toList 60 = (1, some (some sessFix)) ∧
    do_start_session macNull PRESETS configFix ⟨true, true, true⟩
        none 0 "zz".toList 60 = (1, none) ∧
    do_start_session macNull PRESETS configFix ⟨true, true, true⟩
        none 0 "w".toList 60 =
      (0, some (some (create_session macNull "w".toList 60 []
        ["Discord".toList] 0))) := by
  have hres : resolve_blocked_lists PRESETS profileFix ⟨[], []⟩ =
      ([], ["Discord".toList]) := by decide
  refine ⟨?_, ?_, ?_, ?_⟩
  · exact (exitCodes macNull PRESETS configFix ⟨true, true, true⟩
      none 0).2.1 501 ["w".toList] (by decide)
  · exact (exitCodes macNull PRESETS configFix ⟨true, true, true⟩
      (some (some sessFix)) 50).2.2.1 "w".toList 60 (by decide)
  · exact (exitCodes macNull PRESETS configFix ⟨true, true, true⟩
      none 0).2.2.2.1 "zz".toList 60 (by decide) (by decide)
  · have h := (exitCodes macNull PRESETS configFix ⟨true, true, true⟩
      none 0).2.2.2.2.2 "w".toList 60 profileFix (by decide) (by decide)
      (by decide) (Or.inl rfl) (Or.inl (by decide))
    rw [show (configFix).always_blocked = (⟨[], []⟩ : AlwaysBlocked) from rfl,
      hres] at h
    exact h

/-! ## Effectful world model -/

/-- What `datetime.now(tz)` provides to the schedule evaluator: today's date
string (`%Y-%m-%d`), today's weekday name (`%A`), and the wall-clock seconds
since local midnight. -/
structure TzView where
  today : Str
  weekday : Str
  secOfDay : ℚ

/-- Observable system state touched by the enforcement core. -/
structure World where
  hosts : Str
  hostsImmutable : Bool
  sessionFile : SessFile
  sessionImmutable : Bool
  pfctlAnchor : Bool
  pkgProtected : Bool
  plistPresent : Bool
  schedState : List (Str × Str)
deriving DecidableEq

/-- Outcomes of the external calls a tick can make: the clock, filesystem
permissions, pfctl, the resolver, the process table, and timezone data. -/
structure Env where
  now : ℚ
  hostsWriteOk : Bool
  pfctlLoadOk : Bool
  resolveIps : Str → List Str
  procs : List Str
  gracefulOk : Str → Bool
  forcefulOk : Str → Bool
  localTz : Option Str
  tzView : Str → Option TzView

/-- Loopback addresses excluded from the pfctl table. -/
def LOOPBACKS : List Str := ["0.0.0.0".toList, "127.0.0.1".toList, "::1".toList]

/-- `resolve_domain_ips`: resolver results of the truthy domains minus
loopbacks (the IP set is modelled as the list of its members). -/
def resolve_domain_ips (env : Env) (domains : List Str) : List Str :=
  ((domains.filter (fun d => decide (d ≠ []))).flatMap env.resolveIps).filter
    (fun ip => decide (ip ∉ LOOPBACKS))

/-- `apply_pfctl_rules`: trivially true without IPs; otherwise load the anchor
(on success it holds the rules; on failure return false), then enable pf and
persist the token (not otherwise observable here). -/
def apply_pfctl_rules (env : Env) (domains : List Str) (w : World) :
    Bool × World :=
  if resolve_domain_ips env domains = [] then (true, w)
  else if env.pfctlLoadOk then (true, { w with pfctlAnchor := true })
  else (false, w)

/-- `remove_pfctl_rules`: flush the anchor, release the token, unlink the
files; always returns true. -/
def remove_pfctl_rules (w : World) : Bool × World :=
  (true, { w with pfctlAnchor := false })

/-- `are_blocks_applied`. -/
def are_blocks_applied (domains : List Str) (w : World) : Bool :=
  if domains = [] then true else hostsHasSentinels w.hosts

/-- `apply_blocks`: no-op on an empty list; clear the immutable flag, rewrite
the hosts file (a permission failure aborts with false), re-protect, flush
the DNS cache, then call `apply_pfctl_rules` discarding its result. -/
def apply_blocks (env : Env) (domains : List Str) (w : World) : Bool × World :=
  if domains = [] then (true, w)
  else
    let w1 := { w with hostsImmutable := false }
    if env.hostsWriteOk then
      let w2 := { w1 with hosts := applyHosts w1.hosts domains, hostsImmutable := true }
      (true, (apply_pfctl_rules env domains w2).2)
    else (false, w1)

/-- `remove_blocks`: clear the flag, strip the region (a permission failure
aborts with false), flush the DNS cache, remove the pfctl rules; the
immutable flag is not re-asserted. -/
def remove_blocks (env : Env) (w : World) : Bool × World :=
  let w1 := { w with hostsImmutable := false }
  if env.hostsWriteOk then
    let w2 := { w1 with hosts := removeHosts w1.hosts }
    (true, (remove_pfctl_rules w2).2)
  else (false, w1)

/-! ## Claim C9: `apply_blocks` discards the pfctl outcome -/

/-- C9: for a nonempty domain list, `apply_blocks` returns true whenever the
hosts write succeeds, regardless of the packet-filter layer: with a failing
pfctl load it still returns true while leaving the anchor unloaded. -/
theorem applyBlocksIgnoresPfctl (env : Env) (domains : List Str) (w : World)
    (hne : domains ≠ []) (hw : env.hostsWriteOk = true) :
    (apply_blocks env domains w).1 = true ∧
    (apply_blocks { env with pfctlLoadOk := false } domains w).1 = true ∧
    (w.pfctlAnchor = false →
      (apply_blocks { env with pfctlLoadOk := false } domains w).2.pfctlAnchor =
        false) := by
  refine ⟨?_, ?_, ?_⟩
  · unfold apply_blocks
    rw [if_neg hne, if_pos hw]
  · unfold apply_blocks
    rw [if_neg hne]
    dsimp only
    rw [if_pos hw]
  · intro hanchor
    unfold apply_blocks
    rw [if_neg hne]
    dsimp only
    rw [if_pos hw]
    unfold apply_pfctl_rules
    dsimp only
    split_ifs <;> simp_all

/-- Witness for `applyBlocksIgnoresPfctl`: a single-domain apply with a
working hosts write and a failing pfctl load. -/
theorem applyBlocksIgnoresPfctl_witness :
    (apply_blocks ⟨0, true, true, fun _ => ["9.9.9.9".toList], [],
        fun _ => false, fun _ => false, none, fun _ => none⟩
      ["a.com".toList] ⟨[], false, none, false, false, false, false, []⟩).1 =
        true ∧
    (apply_blocks ⟨0, true, false, fun _ => ["9.9.9.9".toList], [],
        fun _ => false, fun _ => false, none, fun _ => none⟩
      ["a.com".toList] ⟨[], false, none, false, false, false, false, []⟩).1 =
        true ∧
    ((⟨[], false, none, false, false, false, false, []⟩ : World).pfctlAnchor =
        false →
      (apply_blocks ⟨0, true, false, fun _ => ["9.9.9.9".toList], [],
          fun _ => false, fun _ => false, none, fun _ => none⟩
        ["a.com".toList]
        ⟨[], false, none, false, false, false, false, []⟩).2.pfctlAnchor =
          false) :=
  applyBlocksIgnoresPfctl
    ⟨0, true, true, fun _ => ["9.9.9.9".toList], [], fun _ => false,
      fun _ => false, none, fun _ => none⟩
    ["a.com".toList] ⟨[], false, none, false, false, false, false, []⟩
    (by decide) rfl

/-! ## Watchdog daemon (`src/lockin/daemon.py`) -/

/-- `is_session_immutable`: false when the file is missing. -/
def is_session_immutable (w : World) : Bool :=
  decide (w.sessionFile ≠ none) && w.sessionImmutable

/-- `set_session_immutable`: a no-op when the file is missing. -/
def set_session_immutable (w : World) : World :=
  if w.sessionFile = none then w else { w with sessionImmutable := true }

/-- `_protect_plist`: re-create the plist when missing and re-assert its
immutable flag and launchd registration (the latter two always succeed under
root and are not modelled further). -/
def protect_plist (w : World) : World := { w with plistPresent := true }

/-- `_protect_package`. -/
def protect_package (protect : Bool) (w : World) : World :=
  { w with pkgProtected := protect }

/-- `_enforce_blocks`: re-assert each missing layer for the active session,
then kill blocked apps (process deaths are outside the modelled state). -/
def enforce_blocks (env : Env) (sess : Session) (w : World) : World :=
  let w1 := if are_blocks_applied sess.blocked_domains w = false then
    (apply_blocks env sess.blocked_domains w).2 else w
  let w2 := if w1.hostsImmutable = false then
    { w1 with hostsImmutable := true } else w1
  let w3 := if w2.pfctlAnchor = false then
    (apply_pfctl_rules env sess.blocked_domains w2).2 else w2
  let w4 := if is_session_immutable w3 = false then set_session_immutable w3
    else w3
  protect_package true (protect_plist w4)

/-- `_cleanup`: unprotect the package, delete the session file (clearing its
immutable flag first), then remove the hosts and pfctl blocks. -/
def cleanup (env : Env) (w : World) : World :=
  let w1 := protect_package false w
  let w2 := { w1 with sessionImmutable := false, sessionFile := none }
  (remove_blocks env w2).2

/-! ### The schedule evaluator -/

/-- Python `int(s)` on schedule time fields: optional minus sign and decimal
digits (the other acceptances of `int` — surrounding whitespace, underscores —
do not occur in `HH:MM` data). -/
def pyInt? (s : Str) : Option ℤ :=
  match s with
  | '-' :: rest =>
    if rest ≠ [] ∧ rest.all Char.isDigit then some (-(digitsToNat rest : ℤ))
    else none
  | _ =>
    if s ≠ [] ∧ s.all Char.isDigit then some (digitsToNat s : ℤ) else none

/-- `hour, minute = map(int, start_time.split(":"))`: exactly two
colon-separated integer fields, else `ValueError` (caught upstream). -/
def parseHHMM (s : Str) : Option (ℤ × ℤ) :=
  match s.splitOn ':' with
  | [hs, ms] =>
    match pyInt? hs, pyInt? ms with
    | some h, some m => some (h, m)
    | _, _ => none
  | _ => none

/-- Dict update `state[k] = v`, modelled up to `dictGet`. -/
def dictSet (k v : Str) (d : List (Str × Str)) : List (Str × Str) :=
  if (dictGet k d).isSome then
    d.map (fun kv => if kv.1 = k then (k, v) else kv)
  else d ++ [(k, v)]

/-- Python `int(x)` on a float: truncation toward zero (`num / den` with
truncating integer division); used for `int((window_end - now).total_seconds())`. -/
def intTrunc (q : ℚ) : ℤ := Int.tdiv q.num q.den

/-- `_try_trigger_schedule`: the updated world and the created session when
the schedule fired.  Every skip path — including the `ValueError` raised by
`datetime.replace` on an out-of-range hour or minute, which `_check_schedules`
catches — leaves the world unchanged.  `window_start` is `now` with the hour
and minute replaced and seconds zeroed, so the window test compares seconds
since local midnight. -/
def try_trigger_schedule (mac : SigPayload → Str)
    (presetsTable : List (Str × Preset)) (name : Str) (sched : Schedule)
    (config : Config) (env : Env) (w : World) : World × Option Session :=
  match (if sched.timezone ≠ [] then some sched.timezone else env.localTz) with
  | none => (w, none)
  | some tz =>
    match env.tzView tz with
    | none => (w, none)
    | some v =>
      if v.weekday ∉ sched.days then (w, none)
      else if dictGet name w.schedState = some v.today then (w, none)
      else
        match parseHHMM sched.start_time with
        | none => (w, none)
        | some hm =>
          if hm.1 < 0 ∨ 23 < hm.1 ∨ hm.2 < 0 ∨ 59 < hm.2 then (w, none)
          else
            if ¬((hm.1 : ℚ) * 3600 + (hm.2 : ℚ) * 60 ≤ v.secOfDay ∧
                v.secOfDay < (hm.1 : ℚ) * 3600 + (hm.2 : ℚ) * 60 +
                  (sched.duration_minutes : ℚ) * 60) then (w, none)
            else
              if intTrunc ((hm.1 : ℚ) * 3600 + (hm.2 : ℚ) * 60 +
                  (sched.duration_minutes : ℚ) * 60 - v.secOfDay) < 60 then
                (w, none)
              else if (match load_session w.sessionFile with
                  | some active =>
                    active.verify mac && !(active.is_expired env.now)
                  | none => false) = true then (w, none)
              else
                match dictGet sched.profile config.profiles with
                | none => (w, none)
                | some profile =>
                  let resolved := resolve_blocked_lists presetsTable profile
                    config.always_blocked
                  if resolved.1 = [] ∧ resolved.2 = [] then (w, none)
                  else
                    let w1 := if resolved.1 ≠ [] then
                      (apply_blocks env resolved.1 w).2 else w
                    let s := create_session mac sched.profile
                      (intTrunc ((hm.1 : ℚ) * 3600 + (hm.2 : ℚ) * 60 +
                        (sched.duration_minutes : ℚ) * 60 - v.secOfDay))
                      resolved.1 resolved.2 env.now
                    let w2 := { w1 with sessionFile := some (some s), sessionImmutable := true }
                    ({ w2 with schedState := dictSet name v.today w2.schedState },
                      some s)

/-- `_check_schedules`: prune stale trigger-state entries, then evaluate each
schedule in declaration order, threading the world (a fired schedule's record
is visible to the active-session re-check of the following ones). -/
def check_schedules (mac : SigPayload → Str)
    (presetsTable : List (Str × Preset)) (config : Config) (env : Env)
    (w : World) : World :=
  if config.schedules = [] then w
  else
    let pruned := w.schedState.filter
      (fun kv => (dictGet kv.1 config.schedules).isSome)
    let w0 := { w with schedState := pruned }
    config.schedules.foldl
      (fun acc ns => (try_trigger_schedule mac presetsTable ns.1 ns.2 config
        env acc).1) w0

/-- One iteration of `watchdog_loop` (minus the sleep): the next world, and
whether the authorized-teardown branch ran. -/
def tick (mac : SigPayload → Str) (presetsTable : List (Str × Preset))
    (config : Config) (env : Env) (w : World) : World × Bool :=
  match load_session w.sessionFile with
  | none =>
    (check_schedules mac presetsTable config env w, false)
  | some sess =>
    if sess.verify mac = false then (w, false)
    else if sess.is_clock_tampered env.now = true then (w, false)
    else if sess.is_expired env.now = true then (cleanup env w, true)
    else (enforce_blocks env sess w, false)

theorem dictGet_map_set {k v : Str} :
    ∀ d : List (Str × Str), (dictGet k d).isSome = true →
      dictGet k (d.map (fun kv => if kv.1 = k then (k, v) else kv)) = some v := by
  intro d
  induction d with
  | nil =>
    intro h
    simp [dictGet] at h
  | cons kv d ih =>
    intro h
    by_cases hk : kv.1 = k
    · unfold dictGet
      rw [List.map_cons, if_pos hk, List.find?_cons_of_pos _ (by simp)]
      rfl
    · unfold dictGet at h ⊢
      rw [List.find?_cons_of_neg _ (by simpa using hk)] at h
      rw [List.map_cons, if_neg hk,
        List.find?_cons_of_neg _ (by simpa using hk)]
      exact ih h

theorem dictGet_dictSet (k v : Str) (d : List (Str × Str)) :
    dictGet k (dictSet k v d) = some v := by
  unfold dictSet
  split_ifs with h
  · exact dictGet_map_set d h
  · have hnone : List.find? (fun kv => decide (kv.1 = k)) d = none := by
      cases hf : List.find? (fun kv => decide (kv.1 = k)) d with
      | none => rfl
      | some x =>
        exfalso
        apply h
        unfold dictGet
        rw [hf]
        rfl
    unfold dictGet
    rw [List.find?_append, hnone]
    simp

/-! ## Claim C7: the schedule evaluator -/

/-- C7: once the evaluator reaches the window check (timezone resolved, day
matches, not yet triggered today, `HH:MM` parses in range, `now` inside the
window), it skips when fewer than 60 whole seconds remain; and when it fires,
the created signed session's `duration_seconds` equals the remaining whole
seconds `⌊window_end − now⌋`, the trigger state records today's date for the
schedule, and re-evaluating the same schedule on the resulting state on the
same day does not re-trigger. -/
theorem scheduleTrigger (mac : SigPayload → Str)
    (presetsTable : List (Str × Preset)) (name : Str) (sched : Schedule)
    (config : Config) (env : Env) (w : World) (tz : Str) (v : TzView)
    (htz : (if sched.timezone ≠ [] then some sched.timezone else env.localTz) =
      some tz)
    (hv : env.tzView tz = some v)
    (hday : v.weekday ∈ sched.days)
    (hstate : ¬dictGet name w.schedState = some v.today)
    (hour minute : ℤ)
    (hparse : parseHHMM sched.start_time = some (hour, minute))
    (hrange : ¬(hour < 0 ∨ 23 < hour ∨ minute < 0 ∨ 59 < minute))
    (hwin : (hour : ℚ) * 3600 + (minute : ℚ) * 60 ≤ v.secOfDay ∧
      v.secOfDay < (hour : ℚ) * 3600 + (minute : ℚ) * 60 +
        (sched.duration_minutes : ℚ) * 60) :
    (intTrunc ((hour : ℚ) * 3600 + (minute : ℚ) * 60 +
        (sched.duration_minutes : ℚ) * 60 - v.secOfDay) < 60 →
      try_trigger_schedule mac presetsTable name sched config env w =
        (w, none)) ∧
    (∀ w' s,
      try_trigger_schedule mac presetsTable name sched config env w =
        (w', some s) →
      s.duration_seconds = intTrunc ((hour : ℚ) * 3600 + (minute : ℚ) * 60 +
        (sched.duration_minutes : ℚ) * 60 - v.secOfDay) ∧
      dictGet name w'.schedState = some v.today ∧
      try_trigger_schedule mac presetsTable name sched config env w' =
        (w', none)) := by
  constructor
  · intro hlt
    unfold try_trigger_schedule
    rw [htz]
    dsimp only
    rw [hv]
    dsimp only
    rw [if_neg (by simpa using hday), if_neg hstate, hparse]
    dsimp only
    rw [if_neg hrange, if_neg (not_not_intro hwin), if_pos hlt]
  · intro w' s hfire
    unfold try_trigger_schedule at hfire
    rw [htz] at hfire
    dsimp only at hfire
    rw [hv] at hfire
    dsimp only at hfire
    rw [if_neg (by simpa using hday), if_neg hstate, hparse] at hfire
    dsimp only at hfire
    rw [if_neg hrange, if_neg (not_not_intro hwin)] at hfire
    by_cases hlt : intTrunc ((hour : ℚ) * 3600 + (minute : ℚ) * 60 +
        (sched.duration_minutes : ℚ) * 60 - v.secOfDay) < 60
    · rw [if_pos hlt] at hfire
      exact absurd (congrArg Prod.snd hfire) (by simp)
    · rw [if_neg hlt] at hfire
      split_ifs at hfire with hact
      · exact absurd (congrArg Prod.snd hfire) (by simp)
      · cases hdg : dictGet sched.profile config.profiles with
        | none =>
          rw [hdg] at hfire
          exact absurd (congrArg Prod.snd hfire) (by simp)
        | some profile =>
          rw [hdg] at hfire
          dsimp only at hfire
          split_ifs at hfire with hres hap
          · exact absurd (congrArg Prod.snd hfire) (by simp)
          · have hw' := congrArg Prod.fst hfire
            have hs := congrArg Prod.snd hfire
            dsimp only at hw' hs
            have hs' := Option.some_inj.mp hs
            refine ⟨?_, ?_, ?_⟩
            · rw [← hs']
              rfl
            · rw [← hw']
              exact dictGet_dictSet name v.today _
            · have hstate' : dictGet name w'.schedState = some v.today := by
                rw [← hw']
                exact dictGet_dictSet name v.today _
              unfold try_trigger_schedule
              rw [htz]
              dsimp only
              rw [hv]
              dsimp only
              rw [if_neg (by simpa using hday), if_pos hstate']
          · have hw' := congrArg Prod.fst hfire
            have hs := congrArg Prod.snd hfire
            dsimp only at hw' hs
            have hs' := Option.some_inj.mp hs
            refine ⟨?_, ?_, ?_⟩
            · rw [← hs']
              rfl
            · rw [← hw']
              exact dictGet_dictSet name v.today _
            · have hstate' : dictGet name w'.schedState = some v.today := by
                rw [← hw']
                exact dictGet_dictSet name v.today _
              unfold try_trigger_schedule
              rw [htz]
              dsimp only
              rw [hv]
              dsimp only
              rw [if_neg (by simpa using hday), if_pos hstate']

/-- Fixtures for concrete schedule-evaluator runs: a Monday 09:00–11:00 UTC
schedule over the apps-only profile. -/
def schedFix : Schedule :=
  ⟨"s".toList, "w".toList, ["Monday".toList], "09:00".toList, 120,
    "UTC".toList⟩

def configSched : Config :=
  ⟨[("w".toList, profileFix)], [("s".toList, schedFix)], ⟨[], []⟩⟩

/-- Monday 09:30 local time. -/
def tzvFix : TzView := ⟨"2026-01-05".toList, "Monday".toList, 34200⟩

/-- Monday 10:59:50 local time: ten seconds left in the window. -/
def tzvLate : TzView := ⟨"2026-01-05".toList, "Monday".toList, 39590⟩

def envFire : Env :=
  ⟨1000, true, true, fun _ => [], [], fun _ => false, fun _ => false, none,
    fun _ => some tzvFix⟩

def envLate : Env :=
  ⟨1000, true, true, fun _ => [], [], fun _ => false, fun _ => false, none,
    fun _ => some tzvLate⟩

def worldIdle : World :=
  ⟨"x\n".toList, false, none, false, false, false, false, []⟩

def sessFired : Session :=
  create_session macNull "w".toList 5400 [] ["Discord".toList] 1000

def worldFired : World :=
  { worldIdle with
      sessionFile := some (some sessFired)
      sessionImmutable := true
      schedState := [("s".toList, "2026-01-05".toList)] }

unseal Rat.add Rat.sub Rat.mul in
/-- Witness for `scheduleTrigger`: at 10:59:50 the schedule is skipped (ten
seconds remain); at 09:30 it fires with `duration_seconds = 5400`, records the
date, and does not re-trigger. -/
theorem scheduleTrigger_witness :
    try_trigger_schedule macNull PRESETS "s".toList schedFix configSched
        envLate worldIdle = (worldIdle, none) ∧
      sessFired.duration_seconds = 5400 ∧
      dictGet "s".toList worldFired.schedState =
        some "2026-01-05".toList ∧
      try_trigger_schedule macNull PRESETS "s".toList schedFix configSched
        envFire worldFired = (worldFired, none) := by
  have h1 := (scheduleTrigger macNull PRESETS "s".toList schedFix configSched
    envLate worldIdle "UTC".toList tzvLate (by decide) rfl (by decide)
    (by decide) 9 0 (by decide) (by decide) (by norm_num [tzvLate, schedFix])).1
    (by decide)
  have h2 := (scheduleTrigger macNull PRESETS "s".toList schedFix configSched
    envFire worldIdle "UTC".toList tzvFix (by decide) rfl (by decide)
    (by decide) 9 0 (by decide) (by decide) (by norm_num [tzvFix, schedFix])).2
    worldFired sessFired (by decide)
  exact ⟨h1, by decide, h2.2.1, h2.2.2⟩

/-! ## Claim C1: the watchdog tick -/

theorem removeHosts_no_sentinel {c : Str} {l : Str}
    (h : l ∈ pySplitlines (removeHosts c)) :
    pyStrip l ≠ BLOCK_START ∧ pyStrip l ≠ BLOCK_END := by
  rw [removeHosts_eq] at h
  have hsp : splitOnNl (strip_existing_blocks c ++ "\n".toList) =
      splitOnNl (strip_existing_blocks c) ++ [[]] := by
    rw [show ("\n".toList : Str) = '\n' :: [] from rfl, splitOnNl_append]
    rfl
  simp only [pySplitlines, hsp] at h
  rw [if_pos (by rw [List.getLast?_concat]), List.dropLast_concat] at h
  exact mem_splitOnNl_strip_not_sentinel h

theorem applyHosts_sentinel (c : Str) (ds : List Str) :
    BLOCK_START <:+: applyHosts c ds := by
  refine ⟨strip_existing_blocks c ++ "\n\n".toList,
    '\n' :: joinNl (blockMid ds ++ [BLOCK_END]) ++ "\n".toList, ?_⟩
  unfold applyHosts
  rw [get_block_entries_eq,
    show blockLines ds = BLOCK_START :: (blockMid ds ++ [BLOCK_END]) from rfl,
    joinNl_cons _ _ (by simp)]
  simp [List.append_assoc]

theorem apply_pfctl_world (env : Env) (ds : List Str) (w : World) :
    (apply_pfctl_rules env ds w).2.hosts = w.hosts ∧
    (apply_pfctl_rules env ds w).2.sessionFile = w.sessionFile ∧
    (w.pfctlAnchor = true →
      (apply_pfctl_rules env ds w).2.pfctlAnchor = true) := by
  unfold apply_pfctl_rules
  split_ifs
  · exact ⟨rfl, rfl, fun h => h⟩
  · exact ⟨rfl, rfl, fun _ => rfl⟩
  · exact ⟨rfl, rfl, fun h => h⟩

theorem apply_blocks_world (env : Env) (ds : List Str) (w : World) :
    (apply_blocks env ds w).2.sessionFile = w.sessionFile ∧
    (BLOCK_START <:+: w.hosts →
      BLOCK_START <:+: (apply_blocks env ds w).2.hosts) ∧
    (w.pfctlAnchor = true →
      (apply_blocks env ds w).2.pfctlAnchor = true) := by
  unfold apply_blocks
  split_ifs with h1 h2
  · exact ⟨rfl, fun h => h, fun h => h⟩
  · refine ⟨?_, ?_, ?_⟩
    · exact (apply_pfctl_world env ds _).2.1
    · intro _
      rw [(apply_pfctl_world env ds _).1]
      exact applyHosts_sentinel w.hosts ds
    · intro h
      exact (apply_pfctl_world env ds _).2.2 h
  · exact ⟨rfl, fun h => h, fun h => h⟩

theorem try_trigger_world (mac : SigPayload → Str)
    (presetsTable : List (Str × Preset)) (name : Str) (sched : Schedule)
    (config : Config) (env : Env) (w : World) :
    (BLOCK_START <:+: w.hosts →
      BLOCK_START <:+:
        (try_trigger_schedule mac presetsTable name sched config env
          w).1.hosts) ∧
    (w.pfctlAnchor = true →
      (try_trigger_schedule mac presetsTable name sched config env
        w).1.pfctlAnchor = true) := by
  unfold try_trigger_schedule
  dsimp only
  repeat' split
  all_goals
    first
      | exact ⟨fun h => h, fun h => h⟩
      | exact ⟨fun h => (apply_blocks_world env _ w).2.1 h,
          fun h => (apply_blocks_world env _ w).2.2 h⟩

theorem foldl_trigger_world (mac : SigPayload → Str)
    (presetsTable : List (Str × Preset)) (config : Config) (env : Env) :
    ∀ (l : List (Str × Schedule)) (w : World),
      (BLOCK_START <:+: w.hosts →
        BLOCK_START <:+: (l.foldl (fun acc ns =>
          (try_trigger_schedule mac presetsTable ns.1 ns.2 config env
            acc).1) w).hosts) ∧
      (w.pfctlAnchor = true →
        (l.foldl (fun acc ns =>
          (try_trigger_schedule mac presetsTable ns.1 ns.2 config env
            acc).1) w).pfctlAnchor = true) := by
  intro l
  induction l with
  | nil => intro w; exact ⟨fun h => h, fun h => h⟩
  | cons ns l ih =>
    intro w
    constructor
    · intro h
      exact (ih _).1
        ((try_trigger_world mac presetsTable ns.1 ns.2 config env w).1 h)
    · intro h
      exact (ih _).2
        ((try_trigger_world mac presetsTable ns.1 ns.2 config env w).2 h)

theorem check_schedules_world (mac : SigPayload → Str)
    (presetsTable : List (Str × Preset)) (config : Config) (env : Env)
    (w : World) :
    (BLOCK_START <:+: w.hosts →
      BLOCK_START <:+: (check_schedules mac presetsTable config env w).hosts) ∧
    (w.pfctlAnchor = true →
      (check_schedules mac presetsTable config env w).pfctlAnchor = true) := by
  unfold check_schedules
  split_ifs with h
  · exact ⟨fun h => h, fun h => h⟩
  · dsimp only
    exact ⟨fun h =>
        (foldl_trigger_world mac presetsTable config env config.schedules _).1 h,
      fun h =>
        (foldl_trigger_world mac presetsTable config env config.schedules _).2 h⟩

theorem cleanup_effects (env : Env) (w : World) (hw : env.hostsWriteOk = true) :
    (cleanup env w).sessionFile = none ∧
    (cleanup env w).pfctlAnchor = false ∧
    ∀ l ∈ pySplitlines (cleanup env w).hosts, pyStrip l ≠ BLOCK_START := by
  unfold cleanup remove_blocks remove_pfctl_rules protect_package
  dsimp only
  rw [if_pos hw]
  refine ⟨rfl, rfl, ?_⟩
  intro l hl
  exact (removeHosts_no_sentinel hl).1

/-- C1 (amended): at every tick the authorized-teardown branch runs iff the
loaded session verifies, the clock check passes, and `now ≥ end_time`; under
it (with a working hosts write) the session file is destroyed, the pfctl
anchor is flushed, and no sentinel line remains in the hosts file.  In the
Tampered-signature and Tampered-clock states the tick leaves the whole world
unchanged.  In the no-session state no teardown occurs — the sentinel (if
present) and the pfctl anchor survive — but the schedule evaluator may still
create a new session and apply blocks, so the session file is not in general
left unchanged. -/
theorem watchdogTeardown (mac : SigPayload → Str)
    (presetsTable : List (Str × Preset)) (config : Config) (env : Env)
    (w : World) :
    ((tick mac presetsTable config env w).2 = true ↔
      ∃ s, load_session w.sessionFile = some s ∧ s.verify mac = true ∧
        s.is_clock_tampered env.now = false ∧ s.is_expired env.now = true) ∧
    (∀ s, load_session w.sessionFile = some s → s.verify mac = false →
      (tick mac presetsTable config env w).1 = w) ∧
    (∀ s, load_session w.sessionFile = some s → s.verify mac = true →
      s.is_clock_tampered env.now = true →
      (tick mac presetsTable config env w).1 = w) ∧
    ((tick mac presetsTable config env w).2 = true → env.hostsWriteOk = true →
      (tick mac presetsTable config env w).1.sessionFile = none ∧
      (tick mac presetsTable config env w).1.pfctlAnchor = false ∧
      ∀ l ∈ pySplitlines (tick mac presetsTable config env w).1.hosts,
        pyStrip l ≠ BLOCK_START) ∧
    (load_session w.sessionFile = none →
      (tick mac presetsTable config env w).2 = false ∧
      (BLOCK_START <:+: w.hosts →
        BLOCK_START <:+: (tick mac presetsTable config env w).1.hosts) ∧
      (w.pfctlAnchor = true →
        (tick mac presetsTable config env w).1.pfctlAnchor = true)) := by
  refine ⟨?_, ?_, ?_, ?_, ?_⟩
  · unfold tick
    cases hl : load_session w.sessionFile with
    | none =>
      dsimp only
      constructor
      · intro h
        cases h
      · rintro ⟨s, hs, _⟩
        cases hs
    | some sess =>
      dsimp only
      split_ifs with h1 h2 h3
      · constructor
        · intro h
          cases h
        · rintro ⟨s, hs, hv, _⟩
          obtain rfl := Option.some_inj.mp hs
          rw [h1] at hv
          cases hv
      · constructor
        · intro h
          cases h
        · rintro ⟨s, hs, _, hc, _⟩
          obtain rfl := Option.some_inj.mp hs
          rw [h2] at hc
          cases hc
      · constructor
        · intro _
          refine ⟨sess, rfl, ?_, ?_, h3⟩
          · revert h1
            cases sess.verify mac <;> simp
          · revert h2
            cases sess.is_clock_tampered env.now <;> simp
        · intro _
          rfl
      · constructor
        · intro h
          cases h
        · rintro ⟨s, hs, _, _, he⟩
          obtain rfl := Option.some_inj.mp hs
          rw [he] at h3
          exact absurd rfl h3
  · intro s hs hv
    unfold tick
    rw [hs]
    dsimp only
    rw [if_pos hv]
  · intro s hs hv hc
    unfold tick
    rw [hs]
    dsimp only
    rw [if_neg (by simp [hv]), if_pos hc]
  · intro hact hw
    unfold tick at hact ⊢
    cases hl : load_session w.sessionFile with
    | none =>
      try rw [hl] at hact
      try rw [hl]
      exact absurd hact (by simp)
    | some sess =>
      try rw [hl] at hact
      try rw [hl]
      dsimp only at hact ⊢
      split_ifs at hact ⊢ with h1 h2 h3
      exact cleanup_effects env w hw
  · intro hl
    unfold tick
    rw [hl]
    dsimp only
    exact ⟨rfl, (check_schedules_world mac presetsTable config env w).1,
      (check_schedules_world mac presetsTable config env w).2⟩

/-- The no-session world whose hosts file still carries the sentinel. -/
def worldNoneSent : World :=
  ⟨BLOCK_START ++ ['\n'], false, none, false, false, false, false, []⟩

unseal Rat.add Rat.sub Rat.mul in
/-- C1 counterexample: in the no-session-with-sentinel state a matching
schedule fires, so the tick does not leave the session file unchanged — it
creates one. -/
theorem watchdogTeardown_counterexample :
    worldNoneSent.sessionFile = none ∧
    BLOCK_START <:+: worldNoneSent.hosts ∧
    (tick macNull PRESETS configSched envFire worldNoneSent).1.sessionFile ≠
      worldNoneSent.sessionFile := by
  refine ⟨rfl, ⟨[], ['\n'], rfl⟩, ?_⟩
  decide

/-- An expired, verified session world and a tampered-signature world. -/
def envTear : Env :=
  ⟨150, true, true, fun _ => [], [], fun _ => false, fun _ => false, none,
    fun _ => none⟩

def wExp : World :=
  ⟨"x\n".toList, true, some (some sessFix), true, true, true, true, []⟩

def sessTamper : Session := { sessFix with hmac_signature := "zz".toList }

def wTamper : World :=
  ⟨"x\n".toList, true, some (some sessTamper), true, true, true, true, []⟩

unseal Rat.add Rat.sub Rat.mul in
/-- Witness for `watchdogTeardown`: the expired verified session is torn down
(session file gone, anchor flushed); the tampered-signature world is left
unchanged. -/
theorem watchdogTeardown_witness :
    (tick macNull PRESETS configFix envTear wExp).2 = true ∧
    (tick macNull PRESETS configFix envTear wExp).1.sessionFile = none ∧
    (tick macNull PRESETS configFix envTear wExp).1.pfctlAnchor = false ∧
    (tick macNull PRESETS configFix envTear wTamper).1 = wTamper ∧
    (tick macNull PRESETS configFix envTear wTamper).2 = false := by
  have h := watchdogTeardown macNull PRESETS configFix envTear wExp
  have hteard : (tick macNull PRESETS configFix envTear wExp).2 = true :=
    h.1.mpr ⟨sessFix, rfl, by decide, by decide, by decide⟩
  have heff := h.2.2.2.1 hteard rfl
  have h2 := watchdogTeardown macNull PRESETS configFix envTear wTamper
  refine ⟨hteard, heff.1, heff.2.1, ?_, ?_⟩
  · exact h2.2.1 sessTamper rfl (by decide)
  · cases htick : (tick macNull PRESETS configFix envTear wTamper).2 with
    | false => rfl
    | true =>
      obtain ⟨s, hs, hv, _⟩ := h2.1.mp htick
      obtain rfl := Option.some_inj.mp hs
      exact absurd hv (by decide)
